import Mathlib

set_option maxHeartbeats 1000000

namespace Eonta

/-! Shallow embedding of the EONTA spatial-audio engine.

Geometry comes from the map utilities module (`calculateDistance`,
`distanceToLine`, `isPointInPolygon`, `getDistanceToBoundaryEdge`,
`simplifyPolygon`); the audio side comes from
`src/client/src/services/EnhancedAudioService.js`
(class `EnhancedAudioService` and class `BoundaryTransitionManager`).

Coordinates are embedded as rationals.  The source's `distanceToLine`
returns `sqrt(dx*dx + dy*dy) * 111000`; every use of that value in the
modelled code is an order comparison (`>`, `min`) or a sign test, and
the map `s` to `sqrt(s) * 111000` is strictly monotone on nonnegative
inputs, so we carry the squared quantity `dx*dx + dy*dy` instead and
transport each comparison through that monotone map (tolerances are
compared via `tol * |tol|`, the signed square, which is exactly
equivalent to comparing the unsquared values).  This keeps every
definition computable. -/

/-- A geographic coordinate pair, the source's plain `{lat, lng}` objects. -/
structure Pt where
  lat : ℚ
  lng : ℚ
deriving DecidableEq, Repr

instance : Inhabited Pt := ⟨⟨0, 0⟩⟩

/-- Squared-distance core of `distanceToLine(x, y, x1, y1, x2, y2)`
(map utilities module).  The source computes the projection parameter,
clamps to the segment, and returns `sqrt(dx*dx + dy*dy) * 111000`; we
return `dx*dx + dy*dy` (see the monotone-map convention above). -/
def distanceToLineSq (x y x1 y1 x2 y2 : ℚ) : ℚ :=
  let A := x - x1
  let B := y - y1
  let C := x2 - x1
  let D := y2 - y1
  let dot := A * C + B * D
  let len_sq := C * C + D * D
  let param := if len_sq ≠ 0 then dot / len_sq else -1
  let xx := if param < 0 then x1 else if 1 < param then x2 else x1 + param * C
  let yy := if param < 0 then y1 else if 1 < param then y2 else y1 + param * D
  let dx := x - xx
  let dy := y - yy
  dx * dx + dy * dy

/-- One iteration's intersection test of the ray-casting loop in
`isPointInPolygon`: with `xi = polygon[i].lng`, `yi = polygon[i].lat`
(and likewise `j`), the source tests
`((yi > point.lat) !== (yj > point.lat)) &&
 (point.lng < (xj - xi) * (point.lat - yi) / (yj - yi) + xi)`.
The division is guarded by the first conjunct (when `yi = yj` the first
conjunct is false), matching the JS short-circuit. -/
def rayCond (p pi pj : Pt) : Bool :=
  (decide (p.lat < pi.lat) != decide (p.lat < pj.lat)) &&
    decide (p.lng < (pj.lng - pi.lng) * (p.lat - pi.lat) / (pj.lat - pi.lat) + pi.lng)

/-- Ray-casting parity test `isPointInPolygon(point, polygon)` from the
map utilities module: `j` starts at the last index and trails `i`. -/
def isPointInPolygon (p : Pt) (poly : List Pt) : Bool :=
  (List.range poly.length).foldl
    (fun inside i =>
      let j := if i = 0 then poly.length - 1 else i - 1
      if rayCond p (poly.getD i default) (poly.getD j default) then !inside else inside)
    false

/-- Minimum over all polygon edges of the (squared) point-to-segment
distance, from `getDistanceToBoundaryEdge`: the source starts
`minDistance` at `Infinity` and takes `Math.min` over edges
`(polygon[i], polygon[(i+1) % polygon.length])`; `none` stands for the
JS `Infinity` that survives when the polygon is empty. -/
def minEdgeSq (pos : Pt) (poly : List Pt) : Option ℚ :=
  (List.range poly.length).foldl
    (fun m i =>
      let p1 := poly.getD i default
      let p2 := poly.getD ((i + 1) % poly.length) default
      let d := distanceToLineSq pos.lat pos.lng p1.lat p1.lng p2.lat p2.lng
      match m with
      | none => some d
      | some m0 => some (min m0 d))
    none

/-- Signed squared representative of `getDistanceToBoundaryEdge`:
the source returns `isInside ? -minDistance : minDistance` where
`minDistance` is the sqrt-valued edge distance; this carries the sign
on the squared magnitude (`none` = the JS `Infinity` of an empty
polygon), preserving the sign and the order of magnitudes. -/
def getDistanceToBoundaryEdgeSq (pos : Pt) (poly : List Pt) : Option ℚ :=
  if isPointInPolygon pos poly then (minEdgeSq pos poly).map (fun q => -q)
  else minEdgeSq pos poly

/-- Generic first-strict-max fold used by `findFurthestPoint` inside
`simplifyPolygon`: starting from `(maxDistance, maxIndex) = (0, 0)`,
scan `i = a+1 .. b-1` and update when `distance > maxDistance`. -/
def ffGen (d : Nat → ℚ) (a b : Nat) : ℚ × Nat :=
  (List.range' (a + 1) (b - (a + 1))).foldl
    (fun m i => if m.1 < d i then (d i, i) else m) (0, 0)

/-- Squared distance of `points[i]` to the chord `points[a]`–`points[b]`,
exactly the `distanceToLine` call inside `findFurthestPoint` (the source
passes `.lat` as x and `.lng` as y). -/
def dSq (pts : List Pt) (i a b : Nat) : ℚ :=
  distanceToLineSq (pts.getD i default).lat (pts.getD i default).lng
    (pts.getD a default).lat (pts.getD a default).lng
    (pts.getD b default).lat (pts.getD b default).lng

/-- The `findFurthestPoint(start, end)` closure of `simplifyPolygon`. -/
def findFurthestPoint (pts : List Pt) (a b : Nat) : ℚ × Nat :=
  ffGen (fun i => dSq pts i a b) a b

/-- The comparison `maxDistance > tolerance` of `simplifySegment`,
transported through the monotone map: with `maxDistance =
sqrt(msq) * 111000` and `msq ≥ 0`, `maxDistance > tolerance` iff
`tolerance * |tolerance| < msq * 111000 ^ 2`. -/
def exceedsTol (tol msq : ℚ) : Bool := decide (tol * |tol| < msq * (111000 : ℚ) ^ 2)

/-- The recursive `simplifySegment(start, end, result)` closure of
`simplifyPolygon`, with an explicit fuel argument standing for the JS
call stack (the source recursion is not structurally terminating: for a
negative tolerance it recurses forever and the fuel runs out, modelling
the stack overflow as `none`).  The `else` branch is the source's
`if (!result.includes(points[end])) result.push(points[end])`. -/
def simplifySegment (pts : List Pt) (tol : ℚ) : Nat → Nat → Nat → List Pt → Option (List Pt)
  | 0, _, _, _ => none
  | f + 1, a, b, result =>
    let fp := findFurthestPoint pts a b
    if exceedsTol tol fp.1 then
      (simplifySegment pts tol f a fp.2 result).bind
        (fun r => simplifySegment pts tol f fp.2 b r)
    else
      some (if result.contains (pts.getD b default) then result
            else result ++ [pts.getD b default])

/-- Top level of `simplifyPolygon(points, tolerance)`: lists of at most
two points are returned unchanged; otherwise the result accumulator is
seeded with `[points[0]]` and `simplifySegment(0, points.length - 1,
result)` runs.  Fuel `points.length` covers every terminating run
(recursion depth is bounded by the segment span). -/
def simplifyPolygon (pts : List Pt) (tol : ℚ) : Option (List Pt) :=
  if pts.length ≤ 2 then some pts
  else simplifySegment pts tol pts.length 0 (pts.length - 1) [pts.getD 0 default]

/-- Index-level skeleton of `simplifySegment`: the list of indices whose
points the recursion pushes, before the `includes` dedup is applied.
Used only through `simplifySegment_eq_keptIdx`. -/
def keptIdx (pts : List Pt) (tol : ℚ) : Nat → Nat → Nat → Option (List Nat)
  | 0, _, _ => none
  | f + 1, a, b =>
    let fp := findFurthestPoint pts a b
    if exceedsTol tol fp.1 then
      (keptIdx pts tol f a fp.2).bind
        (fun l => (keptIdx pts tol f fp.2 b).map (fun r => l ++ r))
    else some [b]

/-- The `push`-with-`includes` accumulation of `simplifySegment`, as a
fold over the pushed values. -/
def dedupExtend (init : List Pt) (l : List Pt) : List Pt :=
  l.foldl (fun acc x => if acc.contains x then acc else acc ++ [x]) init

/-! ## EnhancedAudioService

State-passing embedding of class `EnhancedAudioService`.  Web Audio
nodes are natural-number handles allocated from a counter; the
`sources`, `gainNodes` and `effectNodes` JS `Map`s are association
lists; `audioContext.currentTime` is a frozen `now` field (no claim
depends on the passage of time, only on the order of operations);
`setTimeout` registrations are recorded in `pending` and fired
explicitly by `fireTimeout`.  Every AudioParam automation call the
service issues is appended to the `cmds` trail.  String constants are
named once to mirror the source's literals. -/

def gainS : String := "gain"

def frequencyS : String := "frequency"

def qS : String := "Q"

def wetGainS : String := "wetGain.gain"

def dryGainS : String := "dryGain.gain"

def delayTimeS : String := "delayTime"

def feedbackS : String := "feedback.gain"

def panS : String := "pan"

def lowpassS : String := "lowpass"

def highpassS : String := "highpass"

def reverbS : String := "reverb"

def delayS : String := "delay"

def pitchShiftS : String := "pitchShift"

def spatialAudioS : String := "spatialAudio"

/-- The keys of `effectFactories` set up in the constructor. -/
def knownEffectTypes : List String :=
  [lowpassS, highpassS, reverbS, delayS, pitchShiftS, spatialAudioS]

/-- AudioParam commands issued to the rendering backend.
`assignPitchRatioSemitones` stands for the direct property assignment
`effectNode.pitchRatio = Math.pow(2, amount / 12)` in `applyEffect`;
the semitone `amount` is carried because the ratio is irrational. -/
inductive AudioCmd
  | setValueAtTime (node : Nat) (param : String) (value t : ℚ)
  | linearRampToValueAtTime (node : Nat) (param : String) (value t : ℚ)
  | sourceStart (node : Nat) (at_ : ℚ)
  | sourceStop (node : Nat)
  | assignPitchRatioSemitones (node : Nat) (amount : ℚ)
deriving DecidableEq, Repr

/-- A gain node: its handle and the value last assigned directly to
`gain.value` (creation sets `0`; ramped evolution is not tracked, no
claim depends on it). -/
structure GainNode where
  node : Nat
  value : ℚ
deriving DecidableEq, Repr

/-- Pending `setTimeout` callbacks: the cleanup scheduled by
`stopAudio` (which captures the source node in its closure) and the one
scheduled by `fadeOutAudio`. -/
inductive Timeout
  | stopCleanup (id : String) (sourceNode : Nat) (delayMs : ℚ)
  | fadeOutCleanup (id : String) (delayMs : ℚ)
deriving DecidableEq, Repr

/-- The mutable state of an `EnhancedAudioService` instance. -/
structure AudioState where
  nextNode : Nat
  now : ℚ
  sources : List (String × Nat)
  gainNodes : List (String × GainNode)
  effectNodes : List (String × List (String × Nat))
  pending : List Timeout
  cmds : List AudioCmd
deriving DecidableEq, Repr

/-- JS `Map.set`: replace any binding of `k` (association-list
position is irrelevant, all access is via `List.lookup`). -/
def mset {α : Type} (m : List (String × α)) (k : String) (v : α) : List (String × α) :=
  (k, v) :: m.filter (fun p => p.1 != k)

/-- JS `Map.delete`. -/
def mdel {α : Type} (m : List (String × α)) (k : String) : List (String × α) :=
  m.filter (fun p => p.1 != k)

/-- Playback options of `playAudio` after the
`{ ...defaultOptions, ...options }` merge; `effects` are the
`(effectType, enabled)` entries iterated by the effect-chain loop
(factory construction parameters initialise node values and are not
commands on an active source). -/
structure PlayOptions where
  loop : Bool := true
  volume : ℚ := 1
  fadeIn : ℚ := 1 / 2
  effects : List (String × Bool) := []
deriving DecidableEq, Repr

/-- The effect-chain loop of `playAudio`: each enabled entry whose type
has a factory allocates an effect node and is stored in the per-id
effect map, in iteration order. -/
def buildEffectChain (start : Nat) (effects : List (String × Bool)) :
    List (String × Nat) × Nat :=
  effects.foldl
    (fun acc e =>
      if e.2 && knownEffectTypes.contains e.1 then (acc.1 ++ [(e.1, acc.2)], acc.2 + 1)
      else acc)
    ([], start)

/-- Method `playAudio(id, url, options)`.  `fetchOk` is the outcome of
the `fetch`/`decodeAudioData` awaits, which precede every state
mutation; on failure the `catch` returns `false` with nothing changed.
On success the source has no already-active check of `id`: it
unconditionally overwrites the `sources`/`gainNodes`/`effectNodes`
entries, starts the new source and ramps the gain from 0 to
`settings.volume` over `settings.fadeIn`, returning `true`. -/
def playAudio (s : AudioState) (id : String) (opts : PlayOptions) (fetchOk : Bool) :
    Bool × AudioState :=
  if !fetchOk then (false, s)
  else
    let src := s.nextNode
    let g := s.nextNode + 1
    let chain := buildEffectChain (s.nextNode + 2) opts.effects
    (true,
      { nextNode := chain.2
        now := s.now
        sources := mset s.sources id src
        gainNodes := mset s.gainNodes id ⟨g, 0⟩
        effectNodes := mset s.effectNodes id chain.1
        pending := s.pending
        cmds := s.cmds ++
          [AudioCmd.sourceStart src 0,
           AudioCmd.setValueAtTime g gainS 0 s.now,
           AudioCmd.linearRampToValueAtTime g gainS opts.volume (s.now + opts.fadeIn)] })

/-- Method `stopAudio(id, fadeOut)`: on an unknown id (`!source ||
!gainNode`) returns `false` untouched; otherwise ramps the gain to 0
over `fadeOut` seconds and schedules the cleanup `setTimeout` (whose
closure captures the current source node) after `fadeOut * 1000` ms. -/
def stopAudio (s : AudioState) (id : String) (fadeOut : ℚ) : Bool × AudioState :=
  match s.sources.lookup id, s.gainNodes.lookup id with
  | some src, some g =>
    (true,
      { s with
        cmds := s.cmds ++
          [AudioCmd.setValueAtTime g.node gainS g.value s.now,
           AudioCmd.linearRampToValueAtTime g.node gainS 0 (s.now + fadeOut)]
        pending := s.pending ++ [Timeout.stopCleanup id src (fadeOut * 1000)] })
  | _, _ => (false, s)

/-- Method `setVolume(id, volume)`: unknown id yields `false`; known id
ramps the gain to `volume` over a fixed 0.05 seconds. -/
def setVolume (s : AudioState) (id : String) (volume : ℚ) : Bool × AudioState :=
  match s.gainNodes.lookup id with
  | none => (false, s)
  | some g =>
    (true,
      { s with
        cmds := s.cmds ++
          [AudioCmd.setValueAtTime g.node gainS g.value s.now,
           AudioCmd.linearRampToValueAtTime g.node gainS volume (s.now + 1 / 20)] })

/-- Method `fadeOutAudio(id, duration)`: ramp the gain to 0 over
`duration` and schedule a `setTimeout` that calls `stopAudio(id, 0)` if
the id is still present. -/
def fadeOutAudio (s : AudioState) (id : String) (duration : ℚ) : Bool × AudioState :=
  match s.gainNodes.lookup id with
  | none => (false, s)
  | some g =>
    (true,
      { s with
        cmds := s.cmds ++
          [AudioCmd.setValueAtTime g.node gainS g.value s.now,
           AudioCmd.linearRampToValueAtTime g.node gainS 0 (s.now + duration)]
        pending := s.pending ++ [Timeout.fadeOutCleanup id (duration * 1000)] })

/-- The parameter object passed to `applyEffect`; absent JS properties
are `none`. -/
structure EffectParams where
  frequency : Option ℚ := none
  q : Option ℚ := none
  mix : Option ℚ := none
  time : Option ℚ := none
  feedback : Option ℚ := none
  amount : Option ℚ := none
  pan : Option ℚ := none
deriving DecidableEq, Repr

/-- JS truthiness of an optional number (used for
`if (parameters.frequency)` and `if (parameters.Q)`: `0` is falsy). -/
def truthy (v : Option ℚ) : Bool :=
  match v with
  | none => false
  | some x => x != 0

/-- The `switch (effectType)` body of `applyEffect`: every branch uses
`setValueAtTime(value, currentTime)` (or, for `pitchShift`, a direct
property assignment); the `mix`/`time`/`feedback`/`amount`/`pan`
branches test `!== undefined`, the filter branches test truthiness.  An
unmatched type falls through with no commands. -/
def effectParamCmds (ty : String) (node : Nat) (ps : EffectParams) (now : ℚ) :
    List AudioCmd :=
  if ty = lowpassS || ty = highpassS then
    (if truthy ps.frequency then
        [AudioCmd.setValueAtTime node frequencyS (ps.frequency.getD 0) now]
      else []) ++
    (if truthy ps.q then [AudioCmd.setValueAtTime node qS (ps.q.getD 0) now] else [])
  else if ty = reverbS then
    match ps.mix with
    | some m =>
      [AudioCmd.setValueAtTime node wetGainS m now,
       AudioCmd.setValueAtTime node dryGainS (1 - m) now]
    | none => []
  else if ty = delayS then
    (match ps.time with
      | some t => [AudioCmd.setValueAtTime node delayTimeS t now]
      | none => []) ++
    (match ps.feedback with
      | some fb => [AudioCmd.setValueAtTime node feedbackS fb now]
      | none => [])
  else if ty = pitchShiftS then
    match ps.amount with
    | some a => [AudioCmd.assignPitchRatioSemitones node a]
    | none => []
  else if ty = spatialAudioS then
    match ps.pan with
    | some p => [AudioCmd.setValueAtTime node panS p now]
    | none => []
  else []

/-- Method `applyEffect(id, effectType, parameters)`: `false` when the
id has no effect map or the map has no node of that type; otherwise the
switch above runs and the method returns `true`. -/
def applyEffect (s : AudioState) (id ty : String) (ps : EffectParams) : Bool × AudioState :=
  match s.effectNodes.lookup id with
  | none => (false, s)
  | some m =>
    match m.lookup ty with
    | none => (false, s)
    | some node => (true, { s with cmds := s.cmds ++ effectParamCmds ty node ps s.now })

/-- Firing a scheduled `setTimeout` callback.  The `stopAudio` cleanup
stops the source node captured in its closure and then deletes the
current `sources`/`gainNodes`/`effectNodes` entries for the id —
whatever they now hold.  The `fadeOutAudio` cleanup calls
`stopAudio(id, 0)` if the id is still present. -/
def fireTimeout (s : AudioState) (t : Timeout) : AudioState :=
  match t with
  | .stopCleanup id srcNode _ =>
    { s with
      cmds := s.cmds ++ [AudioCmd.sourceStop srcNode]
      sources := mdel s.sources id
      gainNodes := mdel s.gainNodes id
      effectNodes := mdel s.effectNodes id }
  | .fadeOutCleanup id _ =>
    if (s.sources.lookup id).isSome then (stopAudio s id 0).2 else s

/-! ## BoundaryTransitionManager

The manager translates geometry into calls on the audio service; its
methods are embedded as pure functions returning the ordered list of
service calls they issue (`play` = `playAudio`, `stop` = `stopAudio`,
`fadeOutCall` = `fadeOutAudio`, `setVol` = `setVolume`, `applyFx` =
`applyEffect`).  The audio URL argument plays no role in any claim and
is omitted from `play`. -/

/-- The `transitionTypes` enumeration of the manager; `crossfade` has
no case in either transition switch and falls to the default branch. -/
inductive TransitionType
  | volumeFade
  | lowpassFilter
  | highpassFilter
  | reverbTail
  | pitchShift
  | delayFeedback
  | crossfade
  | doppler
  | spatialBlend
deriving DecidableEq, Repr

/-- A `{ start, end }` parameter range from `advancedSettings`. -/
structure QRange where
  rStart : ℚ
  rEnd : ℚ
deriving DecidableEq, Repr

/-- The `advancedSettings` block of `defaultSettings` (the
`spatialPosition` triple is read by no modelled method and is
omitted). -/
structure AdvancedSettings where
  lowpassFrequency : QRange := ⟨20000, 500⟩
  highpassFrequency : QRange := ⟨20, 2000⟩
  reverbMix : QRange := ⟨1 / 10, 7 / 10⟩
  reverbDecay : QRange := ⟨1, 3⟩
  delayFeedback : QRange := ⟨1 / 10, 7 / 10⟩
  delayTime : QRange := ⟨1 / 4, 1 / 2⟩
  pitchShift : QRange := ⟨0, -4⟩
deriving DecidableEq, Repr

/-- Transition settings with the manager's `defaultSettings` as field
defaults.  `volume` is the optional per-region base volume read by
`handleCrossfades` as `region.settings.volume || 1.0`. -/
structure TransitionSettings where
  fadeInLength : ℚ := 3 / 2
  fadeOutLength : ℚ := 2
  fadeInType : TransitionType := .volumeFade
  fadeOutType : TransitionType := .volumeFade
  transitionRadius : ℚ := 10
  blendingEnabled : Bool := true
  crossfadeOverlap : Bool := true
  volume : Option ℚ := none
  advancedSettings : AdvancedSettings := {}
deriving DecidableEq, Repr

/-- Effect configuration carried in an entry-transition `playAudio`
options object.  `spatialFx` carries the progress argument of
`Math.cos(progress * Math.PI) * 0.8` symbolically (the cosine is
transcendental; no claim reads it). -/
inductive EffectConfig
  | noFx
  | lowpassFx (lowpassFrequency : ℚ)
  | highpassFx (highpassFrequency : ℚ)
  | reverbFx (reverbMix reverbDecay : ℚ)
  | pitchFx (pitchAmount : ℚ)
  | delayFx (delayFeedback delayTime : ℚ)
  | spatialFx (progressArg : ℚ)
deriving DecidableEq, Repr

/-- Options the manager passes to `playAudio` on entry. -/
structure MPlayOptions where
  fadeIn : ℚ
  volume : ℚ
  loop : Bool
  fx : EffectConfig
deriving DecidableEq, Repr

/-- Effect parameters the manager passes to `applyEffect` on exit.
`spatialP` carries the progress argument of the pan cosine
symbolically, as in `EffectConfig.spatialFx`. -/
inductive FxParams
  | lowpassP (frequency q : ℚ)
  | highpassP (frequency q : ℚ)
  | reverbP (mix decay : ℚ)
  | pitchP (amount : ℚ)
  | delayP (feedback time : ℚ)
  | spatialP (progressArg : ℚ)
deriving DecidableEq, Repr

/-- One audio-service invocation issued by the manager. -/
inductive ServiceCall
  | play (id : String) (opts : MPlayOptions)
  | stop (id : String) (fadeOut : ℚ)
  | fadeOutCall (id : String) (duration : ℚ)
  | setVol (id : String) (volume : ℚ)
  | applyFx (id : String) (ps : FxParams)
deriving DecidableEq, Repr

/-- The entry-progress line of `applyEntryTransition`:
`Math.min(1, Math.max(0, (transitionRadius - distanceToEdge) /
transitionRadius))`. -/
def entryProgress (transitionRadius distanceToEdge : ℚ) : ℚ :=
  min 1 (max 0 ((transitionRadius - distanceToEdge) / transitionRadius))

/-- The exit-progress line of `applyExitTransition`:
`Math.min(1, Math.max(0, 1 - distanceToEdge / transitionRadius))`. -/
def exitProgress (transitionRadius distanceToEdge : ℚ) : ℚ :=
  min 1 (max 0 (1 - distanceToEdge / transitionRadius))

/-- Method `applyEntryTransition(regionId, audioData,
transitionSettings, distanceToEdge)`: every branch plays the region's
audio looped with `volume: progress` and `fadeIn: fadeInLength`,
differing only in the effect configuration. -/
def applyEntryTransition (regionId : String) (ts : TransitionSettings)
    (distanceToEdge : ℚ) : List ServiceCall :=
  let progress := entryProgress ts.transitionRadius distanceToEdge
  let adv := ts.advancedSettings
  match ts.fadeInType with
  | .volumeFade => [.play regionId ⟨ts.fadeInLength, progress, true, .noFx⟩]
  | .lowpassFilter =>
    let startFreq := adv.lowpassFrequency.rEnd
    let endFreq := adv.lowpassFrequency.rStart
    let currentFreq := startFreq + progress * (endFreq - startFreq)
    [.play regionId ⟨ts.fadeInLength, progress, true, .lowpassFx currentFreq⟩]
  | .highpassFilter =>
    let hpStartFreq := adv.highpassFrequency.rEnd
    let hpEndFreq := adv.highpassFrequency.rStart
    let hpCurrentFreq := hpStartFreq + progress * (hpEndFreq - hpStartFreq)
    [.play regionId ⟨ts.fadeInLength, progress, true, .highpassFx hpCurrentFreq⟩]
  | .reverbTail =>
    let reverbStart := adv.reverbMix.rEnd
    let reverbEnd := adv.reverbMix.rStart
    let currentReverb := reverbStart + progress * (reverbEnd - reverbStart)
    [.play regionId ⟨ts.fadeInLength, progress, true,
      .reverbFx currentReverb adv.reverbDecay.rStart⟩]
  | .pitchShift =>
    let pitchStart := adv.pitchShift.rEnd
    let pitchEnd := adv.pitchShift.rStart
    let currentPitch := pitchStart + progress * (pitchEnd - pitchStart)
    [.play regionId ⟨ts.fadeInLength, progress, true, .pitchFx currentPitch⟩]
  | .delayFeedback =>
    let delayStart := adv.delayFeedback.rEnd
    let delayEnd := adv.delayFeedback.rStart
    let currentDelay := delayStart + progress * (delayEnd - delayStart)
    [.play regionId ⟨ts.fadeInLength, progress, true,
      .delayFx currentDelay adv.delayTime.rStart⟩]
  | .doppler =>
    let dopplerShift := if progress < 1 / 2 then 1 + (1 / 2 - progress) * (1 / 10) else 1
    [.play regionId ⟨ts.fadeInLength, progress, true, .pitchFx (dopplerShift - 1)⟩]
  | .spatialBlend =>
    [.play regionId ⟨ts.fadeInLength, progress, true, .spatialFx progress⟩]
  | .crossfade => [.play regionId ⟨ts.fadeInLength, progress, true, .noFx⟩]

/-- Method `applyExitTransition(regionId, transitionSettings,
distanceToEdge)`.  The filter branches stop with a hard-coded 0.5 s
fade, reverb with `fadeOutLength * 1.5`, delay with
`fadeOutLength * 2`, pitch/doppler/spatial with `fadeOutLength`; the
`VOLUME_FADE` and default branches call `fadeOutAudio(regionId,
fadeOutLength)` unconditionally. -/
def applyExitTransition (regionId : String) (ts : TransitionSettings)
    (distanceToEdge : ℚ) : List ServiceCall :=
  let progress := exitProgress ts.transitionRadius distanceToEdge
  let adv := ts.advancedSettings
  match ts.fadeOutType with
  | .volumeFade => [.fadeOutCall regionId ts.fadeOutLength]
  | .lowpassFilter =>
    let startFreq := adv.lowpassFrequency.rStart
    let endFreq := adv.lowpassFrequency.rEnd
    let currentFreq := startFreq + (1 - progress) * (endFreq - startFreq)
    [.applyFx regionId (.lowpassP currentFreq 1), .setVol regionId progress] ++
      (if progress ≤ 1 / 20 then [.stop regionId (1 / 2)] else [])
  | .highpassFilter =>
    let hpStartFreq := adv.highpassFrequency.rStart
    let hpEndFreq := adv.highpassFrequency.rEnd
    let hpCurrentFreq := hpStartFreq + (1 - progress) * (hpEndFreq - hpStartFreq)
    [.applyFx regionId (.highpassP hpCurrentFreq 1), .setVol regionId progress] ++
      (if progress ≤ 1 / 20 then [.stop regionId (1 / 2)] else [])
  | .reverbTail =>
    let reverbStart := adv.reverbMix.rStart
    let reverbEnd := adv.reverbMix.rEnd
    let currentReverb := reverbStart + (1 - progress) * (reverbEnd - reverbStart)
    let decayStart := adv.reverbDecay.rStart
    let decayEnd := adv.reverbDecay.rEnd
    let currentDecay := decayStart + (1 - progress) * (decayEnd - decayStart)
    [.applyFx regionId (.reverbP currentReverb currentDecay), .setVol regionId progress] ++
      (if progress ≤ 1 / 20 then [.stop regionId (ts.fadeOutLength * (3 / 2))] else [])
  | .pitchShift =>
    let pitchStart := adv.pitchShift.rStart
    let pitchEnd := adv.pitchShift.rEnd
    let currentPitch := pitchStart + (1 - progress) * (pitchEnd - pitchStart)
    [.applyFx regionId (.pitchP currentPitch), .setVol regionId progress] ++
      (if progress ≤ 1 / 20 then [.stop regionId ts.fadeOutLength] else [])
  | .delayFeedback =>
    let delayStart := adv.delayFeedback.rStart
    let delayEnd := adv.delayFeedback.rEnd
    let currentDelay := delayStart + (1 - progress) * (delayEnd - delayStart)
    let timeStart := adv.delayTime.rStart
    let timeEnd := adv.delayTime.rEnd
    let currentTime := timeStart + (1 - progress) * (timeEnd - timeStart)
    [.applyFx regionId (.delayP currentDelay currentTime), .setVol regionId progress] ++
      (if progress ≤ 1 / 20 then [.stop regionId (ts.fadeOutLength * 2)] else [])
  | .doppler =>
    let dopplerShift := if 1 / 2 < progress then 1 - (progress - 1 / 2) * (1 / 10) else 1
    [.applyFx regionId (.pitchP (dopplerShift - 1)), .setVol regionId progress] ++
      (if progress ≤ 1 / 20 then [.stop regionId ts.fadeOutLength] else [])
  | .spatialBlend =>
    [.applyFx regionId (.spatialP progress), .setVol regionId progress] ++
      (if progress ≤ 1 / 20 then [.stop regionId ts.fadeOutLength] else [])
  | .crossfade => [.fadeOutCall regionId ts.fadeOutLength]

/-- Squared form of the manager's own `calculateDistance(point1,
point2)` (plain Euclidean in degrees, `Math.sqrt(pow(dlat,2) +
pow(dlng,2))`); the square is carried per the monotone-map
convention. -/
def btCalculateDistanceSq (p1 p2 : Pt) : ℚ :=
  (p2.lat - p1.lat) ^ 2 + (p2.lng - p1.lng) ^ 2

/-- An active region as consumed by `handleCrossfades`. -/
structure Region where
  id : String
  center : Pt
  settings : TransitionSettings
deriving DecidableEq, Repr

/-- JS `region.settings.volume || 1.0` (`0` is falsy and also falls
back to `1.0`). -/
def baseVolumeOf (v : Option ℚ) : ℚ :=
  match v with
  | none => 1
  | some q => if q = 0 then 1 else q

/-- The inner-loop body of `handleCrossfades` for one pair of active
regions, given the centroid distances `d1`, `d2` the source computes
with `calculateDistance` (square roots, hence nonnegative).  The pair
is skipped when either region disables `crossfadeOverlap` or when
`totalDistance === 0`; otherwise both volumes are set to
`baseVolume * (0.7 + 0.3 * ratio)`. -/
def handleCrossfadePair (r1 r2 : Region) (d1 d2 : ℚ) : List ServiceCall :=
  if !r1.settings.crossfadeOverlap || !r2.settings.crossfadeOverlap then []
  else
    let totalDistance := d1 + d2
    if totalDistance = 0 then []
    else
      let ratio1 := 1 - d1 / totalDistance
      let ratio2 := 1 - d2 / totalDistance
      let baseVolume1 := baseVolumeOf r1.settings.volume
      let baseVolume2 := baseVolumeOf r2.settings.volume
      [.setVol r1.id (baseVolume1 * (7 / 10 + 3 / 10 * ratio1)),
       .setVol r2.id (baseVolume2 * (7 / 10 + 3 / 10 * ratio2))]

/-- The per-region applied volume of `handleCrossfades`:
`baseVolume * (0.7 + 0.3 * ratio)` with
`ratio = 1 - dSelf / (dSelf + dOther)`. -/
def crossfadeVolume (base dSelf dOther : ℚ) : ℚ :=
  base * (7 / 10 + 3 / 10 * (1 - dSelf / (dSelf + dOther)))

/-! ## Observation helpers and concrete inputs used by the theorems -/

/-- Volumes of the `playAudio` calls in a manager call list. -/
def playVolumes (calls : List ServiceCall) : List ℚ :=
  calls.filterMap (fun c =>
    match c with
    | .play _ o => some o.volume
    | _ => none)

/-- Fade durations of the `stopAudio` calls in a manager call list. -/
def stopFades (calls : List ServiceCall) : List ℚ :=
  calls.filterMap (fun c =>
    match c with
    | .stop _ f => some f
    | _ => none)

/-- Durations of the `fadeOutAudio` calls in a manager call list. -/
def fadeOutDurations (calls : List ServiceCall) : List ℚ :=
  calls.filterMap (fun c =>
    match c with
    | .fadeOutCall _ f => some f
    | _ => none)

/-- Whether an audio command is a `linearRampToValueAtTime`. -/
def isRampCmd (c : AudioCmd) : Bool :=
  match c with
  | .linearRampToValueAtTime _ _ _ _ => true
  | _ => false

/-- The commands an operation appended to the trail. -/
def emittedCmds (s sNew : AudioState) : List AudioCmd :=
  sNew.cmds.drop s.cmds.length

/-- A freshly constructed service (constructor state). -/
def emptyAudioState : AudioState := ⟨0, 0, [], [], [], [], []⟩

/-- A sample audio id. -/
def idA : String := "a"

/-- A sample region id. -/
def ridR : String := "r"

/-- State after one successful `playAudio(idA)` on a fresh service:
source node 0, gain node 1, next handle 2. -/
def sOnce : AudioState := (playAudio emptyAudioState idA {} true).2

/-- State after `stopAudio(idA, 0.5)` on `sOnce`: the gain ramps down
and a cleanup capturing source node 0 is scheduled for 500 ms. -/
def sStop : AudioState := (stopAudio sOnce idA (1 / 2)).2

/-- State after a second successful `playAudio(idA)` issued while the
`sStop` cleanup is still pending: source node 2 replaces node 0. -/
def sReplay : AudioState := (playAudio sStop idA {} true).2

/-- Settings whose exit transition is `LOWPASS_FILTER` (all other
fields default, so `fadeOutLength = 2`). -/
def tsLowpassC3 : TransitionSettings := { fadeOutType := .lowpassFilter }

/-- Settings whose exit transition is `REVERB_TAIL`. -/
def tsReverbW : TransitionSettings := { fadeOutType := .reverbTail }

/-- State after a successful `playAudio(idA)` with a lowpass effect
enabled: source node 0, gain node 1, lowpass effect node 2. -/
def sFx : AudioState :=
  (playAudio emptyAudioState idA { effects := [(lowpassS, true)] } true).2

/-- An `applyEffect` parameter object carrying only `frequency`. -/
def psFreqOnly : EffectParams := { frequency := some 1000 }

/-- A crossfade-enabled region at the origin with default settings. -/
def regA : Region := ⟨idA, ⟨0, 0⟩, {}⟩

/-- A second crossfade-enabled region with default settings. -/
def regB : Region := ⟨ridR, ⟨1, 0⟩, {}⟩

/-- Counterexample input for `simplifyPolygon` idempotence: the point
`(2,3)` occurs twice (a polyline may revisit a coordinate), so the
`includes` dedup drops its second retention. -/
def pcex : List Pt := [⟨0, 0⟩, ⟨2, 3⟩, ⟨5, 5⟩, ⟨2, 3⟩, ⟨8, 2⟩, ⟨10, 0⟩]

/-- First `simplifyPolygon pcex 55500` pass: `(8,2)` is retained. -/
def rcexMid : List Pt := [⟨0, 0⟩, ⟨2, 3⟩, ⟨5, 5⟩, ⟨8, 2⟩, ⟨10, 0⟩]

/-- Second pass over `rcexMid`: with the duplicate gone, `(8,2)` now
lies within tolerance of the chord `(5,5)`–`(10,0)` and is dropped. -/
def rcexFinal : List Pt := [⟨0, 0⟩, ⟨2, 3⟩, ⟨5, 5⟩, ⟨10, 0⟩]

/-- A duplicate-free input for the idempotence witness. -/
def pwit : List Pt := [⟨0, 0⟩, ⟨1, 1⟩, ⟨2, 0⟩]

/-- A two-vertex degenerate polygon. -/
def polyTwo : List Pt := [⟨1, 1⟩, ⟨2, 3⟩]

/-! ## Helper lemmas -/

theorem lookup_mset_self {α : Type} (m : List (String × α)) (k : String) (v : α) :
    (mset m k v).lookup k = some v := by
  simp [mset, List.lookup]

theorem lookup_mdel_self {α : Type} (m : List (String × α)) (k : String) :
    (mdel m k).lookup k = none := by
  induction m with
  | nil => rfl
  | cons p t ih =>
    obtain ⟨k1, v⟩ := p
    unfold mdel at ih ⊢
    rw [List.filter_cons]
    by_cases h : k1 = k
    · simpa [h] using ih
    · have hb : ((k1, v).1 != k) = true := by simpa using h
      have hk : (k == k1) = false := beq_eq_false_iff_ne.mpr (Ne.symm h)
      simpa [hb, List.lookup, hk] using ih

theorem distanceToLineSq_nonneg (x y x1 y1 x2 y2 : ℚ) :
    0 ≤ distanceToLineSq x y x1 y1 x2 y2 := by
  simp only [distanceToLineSq]
  exact add_nonneg (mul_self_nonneg _) (mul_self_nonneg _)

/-! ## C4 -/

/-- C4: entry progress is computed as
`min(1, max(0, (transitionRadius - distanceToEdge)/transitionRadius))`;
with radius 10 the distances 10, 5, 0 give progress 0, 1/2, 1; every
entry transition plays at volume equal to that progress; and for any
positive radius the progress lies in `[0, 1]`. -/
theorem entry_progress_formula :
    entryProgress 10 10 = 0 ∧ entryProgress 10 5 = 1 / 2 ∧ entryProgress 10 0 = 1 ∧
    (∀ id ts d, playVolumes (applyEntryTransition id ts d) =
      [entryProgress ts.transitionRadius d]) ∧
    (∀ r d : ℚ, 0 < r → 0 ≤ entryProgress r d ∧ entryProgress r d ≤ 1) := by
  refine ⟨by norm_num [entryProgress], by norm_num [entryProgress],
    by norm_num [entryProgress], ?_, ?_⟩
  · intro id ts d
    cases h : ts.fadeInType <;> simp [applyEntryTransition, h, playVolumes]
  · intro r d _
    exact ⟨le_min (by norm_num) (le_max_left _ _), min_le_left _ _⟩

/-- Witness for C4 at radius 3, distance 1. -/
theorem entry_progress_formula_w :
    0 ≤ entryProgress 3 1 ∧ entryProgress 3 1 ≤ 1 :=
  entry_progress_formula.2.2.2.2 3 1 (by norm_num)

/-! ## C6 -/

/-- C6: for a crossfade-enabled pair the issued volumes are
`baseVolume * (0.7 + 0.3 * ratio)` with
`ratio_i = 1 - d_i / (d_1 + d_2)`; such a volume always lies in
`[0.7 * base, base]` for nonnegative distances, and equidistant regions
both get `0.85 * base`. -/
theorem crossfade_pair_weights (r1 r2 : Region) (d1 d2 : ℚ)
    (hc1 : r1.settings.crossfadeOverlap = true)
    (hc2 : r2.settings.crossfadeOverlap = true)
    (hne : d1 + d2 ≠ 0) :
    handleCrossfadePair r1 r2 d1 d2 =
      [.setVol r1.id (crossfadeVolume (baseVolumeOf r1.settings.volume) d1 d2),
       .setVol r2.id (crossfadeVolume (baseVolumeOf r2.settings.volume) d2 d1)] ∧
    (∀ b dSelf dOther : ℚ, 0 ≤ b → 0 ≤ dSelf → 0 ≤ dOther → dSelf + dOther ≠ 0 →
      7 / 10 * b ≤ crossfadeVolume b dSelf dOther ∧ crossfadeVolume b dSelf dOther ≤ b) ∧
    (d1 = d2 →
      crossfadeVolume (baseVolumeOf r1.settings.volume) d1 d2 =
        17 / 20 * baseVolumeOf r1.settings.volume ∧
      crossfadeVolume (baseVolumeOf r2.settings.volume) d2 d1 =
        17 / 20 * baseVolumeOf r2.settings.volume) := by
  refine ⟨?_, ?_, ?_⟩
  · have e : d2 + d1 = d1 + d2 := add_comm _ _
    simp [handleCrossfadePair, crossfadeVolume, hc1, hc2, hne, e]
  · intro b dSelf dOther hb hds hdo hne2
    have hpos : 0 < dSelf + dOther := lt_of_le_of_ne (add_nonneg hds hdo) (Ne.symm hne2)
    have hq0 : 0 ≤ dSelf / (dSelf + dOther) := div_nonneg hds hpos.le
    have hq1 : dSelf / (dSelf + dOther) ≤ 1 :=
      (div_le_one hpos).mpr (le_add_of_nonneg_right hdo)
    unfold crossfadeVolume
    constructor
    · nlinarith [mul_nonneg hb (sub_nonneg.mpr hq1)]
    · nlinarith [mul_nonneg hb hq0]
  · intro h
    subst h
    have hd : d1 ≠ 0 := by
      intro h0
      exact hne (by rw [h0]; ring)
    have hhalf : d1 / (d1 + d1) = 1 / 2 := by
      rw [show d1 + d1 = 2 * d1 by ring]
      field_simp
      ring
    constructor <;> · unfold crossfadeVolume; rw [hhalf]; ring

/-- Witness for C6 with both regions at distance 3 and base volume 1. -/
theorem crossfade_pair_weights_w :
    handleCrossfadePair regA regB 3 3 =
      [.setVol regA.id (crossfadeVolume 1 3 3), .setVol regB.id (crossfadeVolume 1 3 3)] ∧
    crossfadeVolume 1 3 3 = 17 / 20 * 1 := by
  have h := crossfade_pair_weights regA regB 3 3 rfl rfl (by norm_num)
  have hb1 : baseVolumeOf regA.settings.volume = 1 := rfl
  have hb2 : baseVolumeOf regB.settings.volume = 1 := rfl
  refine ⟨?_, ?_⟩
  · have := h.1
    rwa [hb1, hb2] at this
  · have := (h.2.2 rfl).1
    rwa [hb1] at this

/-! ## C8 -/

/-- C8: `stopAudio`, `setVolume` and `applyEffect` on an id with no
active source return `false` and leave the service state unchanged. -/
theorem unknown_id_ops_fail (s : AudioState) (id : String) (fadeOut vol : ℚ)
    (ty : String) (ps : EffectParams)
    (hs : s.sources.lookup id = none) (hg : s.gainNodes.lookup id = none)
    (he : s.effectNodes.lookup id = none) :
    stopAudio s id fadeOut = (false, s) ∧
    setVolume s id vol = (false, s) ∧
    applyEffect s id ty ps = (false, s) := by
  refine ⟨?_, ?_, ?_⟩
  · unfold stopAudio
    rw [hs, hg]
  · unfold setVolume
    rw [hg]
  · unfold applyEffect
    rw [he]

/-- Witness for C8 on the fresh service. -/
theorem unknown_id_ops_fail_w :
    stopAudio emptyAudioState idA (1 / 2) = (false, emptyAudioState) ∧
    setVolume emptyAudioState idA 1 = (false, emptyAudioState) ∧
    applyEffect emptyAudioState idA lowpassS psFreqOnly = (false, emptyAudioState) :=
  unknown_id_ops_fail emptyAudioState idA (1 / 2) 1 lowpassS psFreqOnly rfl rfl rfl

/-! ## C9 -/

/-- C9: a crossfade pair whose centroid distances are both zero is
skipped — `handleCrossfades` issues no volume update for it, so no
ratio is ever computed with a zero total distance. -/
theorem crossfade_zero_distance_skipped (r1 r2 : Region) (d1 d2 : ℚ)
    (h1 : d1 = 0) (h2 : d2 = 0) :
    handleCrossfadePair r1 r2 d1 d2 = [] := by
  subst h1; subst h2
  unfold handleCrossfadePair
  split
  · rfl
  · norm_num

/-- Witness for C9. -/
theorem crossfade_zero_distance_skipped_w :
    handleCrossfadePair regA regB 0 0 = [] :=
  crossfade_zero_distance_skipped regA regB 0 0 rfl rfl

/-! ## C3 -/

/-- C3 counterexample: with fadeOutType `LOWPASS_FILTER` and the
default `fadeOutLength = 2`, exit progress 0.04 (≤ 0.05) triggers a
teardown whose stop fade is the hard-coded 0.5 s — not `fadeOutLength`
as the claim states for non-reverb, non-delay types. -/
theorem exit_fade_tail_cex :
    exitProgress tsLowpassC3.transitionRadius (48 / 5) ≤ 1 / 20 ∧
    tsLowpassC3.fadeOutLength = 2 ∧
    stopFades (applyExitTransition ridR tsLowpassC3 (48 / 5)) = [1 / 2] ∧
    ((1 : ℚ) / 2) ≠ 2 := by
  refine ⟨by norm_num [exitProgress, tsLowpassC3], rfl, ?_, by norm_num⟩
  norm_num [applyExitTransition, tsLowpassC3, stopFades, exitProgress,
    List.filterMap_cons]

/-- C3 (amended): when exit progress reaches ≤ 0.05 the teardown fade
is type-specific — `1.5 × fadeOutLength` for `REVERB_TAIL`,
`2 × fadeOutLength` for `DELAY_FEEDBACK`, `fadeOutLength` for
`PITCH_SHIFT`/`DOPPLER`/`SPATIAL_BLEND`, but a fixed 0.5 s for
`LOWPASS_FILTER`/`HIGHPASS_FILTER`; `VOLUME_FADE` (and the default
branch) instead issue an unconditional `fadeOutAudio(fadeOutLength)`
not gated on progress. -/
theorem exit_fade_tails (id : String) (ts : TransitionSettings) (d : ℚ)
    (h : exitProgress ts.transitionRadius d ≤ 1 / 20) :
    stopFades (applyExitTransition id ts d) =
      (match ts.fadeOutType with
        | .reverbTail => [ts.fadeOutLength * (3 / 2)]
        | .delayFeedback => [ts.fadeOutLength * 2]
        | .pitchShift => [ts.fadeOutLength]
        | .doppler => [ts.fadeOutLength]
        | .spatialBlend => [ts.fadeOutLength]
        | .lowpassFilter => [1 / 2]
        | .highpassFilter => [1 / 2]
        | .volumeFade => []
        | .crossfade => []) ∧
    fadeOutDurations (applyExitTransition id ts d) =
      (match ts.fadeOutType with
        | .volumeFade => [ts.fadeOutLength]
        | .crossfade => [ts.fadeOutLength]
        | _ => []) := by
  have h2 : exitProgress ts.transitionRadius d ≤ 20⁻¹ := by rwa [one_div] at h
  cases hty : ts.fadeOutType <;>
    simp [applyExitTransition, hty, stopFades, fadeOutDurations, h, h2,
      List.filterMap_cons]

/-- Witness for C3 with `REVERB_TAIL` settings at progress 0.04. -/
theorem exit_fade_tails_w :
    stopFades (applyExitTransition ridR tsReverbW (48 / 5)) =
      [tsReverbW.fadeOutLength * (3 / 2)] ∧
    fadeOutDurations (applyExitTransition ridR tsReverbW (48 / 5)) = [] := by
  have h := exit_fade_tails ridR tsReverbW (48 / 5) (by norm_num [exitProgress, tsReverbW])
  exact ⟨h.1, h.2⟩

/-! ## C5 -/

theorem effectParamCmds_no_ramp (ty : String) (node : Nat) (ps : EffectParams) (now : ℚ) :
    ∀ c ∈ effectParamCmds ty node ps now, isRampCmd c = false := by
  intro c hc
  unfold effectParamCmds at hc
  repeat' split at hc
  all_goals simp_all [isRampCmd]
  all_goals rcases hc with rfl | rfl <;> rfl

/-- C5 counterexample: on a known id with a lowpass effect node,
`applyEffect` succeeds and applies the frequency change as a single
`setValueAtTime` — an instantaneous assignment, with no ramp of any
duration, contrary to the claim that every parameter change is a ramp
of positive duration. -/
theorem apply_effect_instantaneous_cex :
    (applyEffect sFx idA lowpassS psFreqOnly).1 = true ∧
    emittedCmds sFx (applyEffect sFx idA lowpassS psFreqOnly).2 =
      [AudioCmd.setValueAtTime 2 frequencyS 1000 0] ∧
    (∀ c ∈ emittedCmds sFx (applyEffect sFx idA lowpassS psFreqOnly).2,
      isRampCmd c = false) := by
  refine ⟨?_, ?_, ?_⟩ <;>
    simp [sFx, playAudio, emptyAudioState, buildEffectChain, knownEffectTypes, mset,
      applyEffect, effectParamCmds, truthy, psFreqOnly, emittedCmds, List.lookup,
      lowpassS, highpassS, idA, isRampCmd]

/-- C5 (amended): `setVolume` on a known id reaches the new value via a
`linearRampToValueAtTime` over a positive 0.05 s, but `applyEffect`
parameter changes are instantaneous `setValueAtTime`/property
assignments — no call of `applyEffect` ever issues a ramp. -/
theorem volume_ramps_effects_instantaneous (s : AudioState) (id : String) (v : ℚ)
    (ty : String) (ps : EffectParams) (g : GainNode)
    (hg : s.gainNodes.lookup id = some g) :
    emittedCmds s (setVolume s id v).2 =
      [AudioCmd.setValueAtTime g.node gainS g.value s.now,
       AudioCmd.linearRampToValueAtTime g.node gainS v (s.now + 1 / 20)] ∧
    (0 : ℚ) < 1 / 20 ∧
    (∀ c ∈ emittedCmds s (applyEffect s id ty ps).2, isRampCmd c = false) := by
  refine ⟨?_, by norm_num, ?_⟩
  · unfold setVolume
    rw [hg]
    simp [emittedCmds]
  · unfold applyEffect
    cases he : s.effectNodes.lookup id with
    | none => simp [emittedCmds]
    | some m =>
      dsimp only
      cases hn : m.lookup ty with
      | none => simp [emittedCmds]
      | some node =>
        dsimp only [emittedCmds]
        rw [List.drop_left]
        exact effectParamCmds_no_ramp ty node ps s.now

/-- Witness for C5 on the lowpass service state. -/
theorem volume_ramps_effects_instantaneous_w :
    emittedCmds sFx (setVolume sFx idA 1).2 =
      [AudioCmd.setValueAtTime 1 gainS 0 sFx.now,
       AudioCmd.linearRampToValueAtTime 1 gainS 1 (sFx.now + 1 / 20)] ∧
    (0 : ℚ) < 1 / 20 ∧
    (∀ c ∈ emittedCmds sFx (applyEffect sFx idA lowpassS psFreqOnly).2,
      isRampCmd c = false) :=
  volume_ramps_effects_instantaneous sFx idA 1 lowpassS psFreqOnly ⟨1, 0⟩ rfl

/-! ## C1 -/

/-- C1 counterexample: with `idA` already active (source node 0), a
second successful `playAudio` for the same id returns `true` (not a
failure) and replaces the stored source entry with the new node 2. -/
theorem play_already_active_cex :
    sOnce.sources.lookup idA = some 0 ∧
    (playAudio sOnce idA {} true).1 = true ∧
    (playAudio sOnce idA {} true).2.sources.lookup idA = some 2 := by
  refine ⟨?_, rfl, ?_⟩ <;>
    simp [sOnce, playAudio, emptyAudioState, mset, buildEffectChain, List.lookup]

/-- C1 (amended): `playAudio` has no already-active check: a second
successful call for an active id returns `true`, stores a fresh source
node over the old entry, and never stops the previous source (which
keeps playing, leaked). -/
theorem play_already_active_replaces (s : AudioState) (id : String) (opts : PlayOptions)
    (src0 : Nat) (hactive : s.sources.lookup id = some src0)
    (hfresh : src0 < s.nextNode) :
    (playAudio s id opts true).1 = true ∧
    (playAudio s id opts true).2.sources.lookup id = some s.nextNode ∧
    s.nextNode ≠ src0 ∧
    (∀ c ∈ emittedCmds s (playAudio s id opts true).2, ∀ n, c ≠ AudioCmd.sourceStop n) := by
  refine ⟨rfl, ?_, ne_of_gt hfresh, ?_⟩
  · simp [playAudio, lookup_mset_self]
  · intro c hc n
    simp [playAudio, emittedCmds, List.drop_left, List.mem_cons] at hc
    rcases hc with rfl | rfl | rfl <;> simp

/-- Witness for C1 on `sOnce`. -/
theorem play_already_active_replaces_w :
    (playAudio sOnce idA {} true).1 = true ∧
    (playAudio sOnce idA {} true).2.sources.lookup idA = some sOnce.nextNode ∧
    sOnce.nextNode ≠ 0 ∧
    (∀ c ∈ emittedCmds sOnce (playAudio sOnce idA {} true).2,
      ∀ n, c ≠ AudioCmd.sourceStop n) :=
  play_already_active_replaces sOnce idA {} 0
    (by simp [sOnce, playAudio, emptyAudioState, mset, buildEffectChain, List.lookup])
    (by norm_num [sOnce, playAudio, emptyAudioState, buildEffectChain])

/-! ## C2 -/

/-- C2 counterexample: play `idA`, stop it (cleanup for source node 0
pending), play `idA` again (source node 2), then the pending cleanup
fires — and deletes the service entries of the newly started source,
contrary to the claim that the pending stop is cancelled. -/
theorem pending_stop_cex :
    sStop.pending = [Timeout.stopCleanup idA 0 (1 / 2 * 1000)] ∧
    sReplay.pending = [Timeout.stopCleanup idA 0 (1 / 2 * 1000)] ∧
    sReplay.sources.lookup idA = some 2 ∧
    (fireTimeout sReplay (Timeout.stopCleanup idA 0 (1 / 2 * 1000))).sources.lookup idA =
      none := by
  refine ⟨?_, ?_, ?_, ?_⟩ <;>
    simp [sStop, sReplay, sOnce, stopAudio, playAudio, fireTimeout, emptyAudioState,
      mset, mdel, buildEffectChain, List.lookup, List.filter]

/-- C2 (amended): a new `playAudio` for an id mid-teardown does not
cancel the pending `stopAudio` cleanup: the cleanup stays pending, and
when it fires it stops only the old captured source node but deletes
the `sources`/`gainNodes`/`effectNodes` entries now belonging to the
newly started source, orphaning it. -/
theorem pending_stop_not_cancelled (s : AudioState) (id : String) (fadeOut : ℚ)
    (opts : PlayOptions) (src0 : Nat) (g : GainNode)
    (hsrc : s.sources.lookup id = some src0) (hg : s.gainNodes.lookup id = some g)
    (hfresh : src0 < s.nextNode) :
    Timeout.stopCleanup id src0 (fadeOut * 1000) ∈ ((stopAudio s id fadeOut).2).pending ∧
    ((playAudio (stopAudio s id fadeOut).2 id opts true).2).pending =
      ((stopAudio s id fadeOut).2).pending ∧
    ((playAudio (stopAudio s id fadeOut).2 id opts true).2).sources.lookup id =
      some s.nextNode ∧
    s.nextNode ≠ src0 ∧
    (fireTimeout ((playAudio (stopAudio s id fadeOut).2 id opts true).2)
        (Timeout.stopCleanup id src0 (fadeOut * 1000))).sources.lookup id = none ∧
    (fireTimeout ((playAudio (stopAudio s id fadeOut).2 id opts true).2)
        (Timeout.stopCleanup id src0 (fadeOut * 1000))).gainNodes.lookup id = none ∧
    (fireTimeout ((playAudio (stopAudio s id fadeOut).2 id opts true).2)
        (Timeout.stopCleanup id src0 (fadeOut * 1000))).effectNodes.lookup id = none ∧
    (fireTimeout ((playAudio (stopAudio s id fadeOut).2 id opts true).2)
        (Timeout.stopCleanup id src0 (fadeOut * 1000))).cmds =
      ((playAudio (stopAudio s id fadeOut).2 id opts true).2).cmds ++
        [AudioCmd.sourceStop src0] := by
  have hstop : (stopAudio s id fadeOut).2 =
      { s with
        cmds := s.cmds ++
          [AudioCmd.setValueAtTime g.node gainS g.value s.now,
           AudioCmd.linearRampToValueAtTime g.node gainS 0 (s.now + fadeOut)]
        pending := s.pending ++ [Timeout.stopCleanup id src0 (fadeOut * 1000)] } := by
    unfold stopAudio
    rw [hsrc, hg]
  rw [hstop]
  refine ⟨?_, rfl, ?_, ne_of_gt hfresh, ?_, ?_, ?_, rfl⟩
  · exact List.mem_append_right _ (List.mem_singleton.mpr rfl)
  · simp [playAudio, lookup_mset_self]
  · simp [playAudio, fireTimeout, lookup_mdel_self]
  · simp [playAudio, fireTimeout, lookup_mdel_self]
  · simp [playAudio, fireTimeout, lookup_mdel_self]

/-- Witness for C2 on the `sOnce` state. -/
theorem pending_stop_not_cancelled_w :
    Timeout.stopCleanup idA 0 (1 / 2 * 1000) ∈
      ((stopAudio sOnce idA (1 / 2)).2).pending ∧
    ((playAudio (stopAudio sOnce idA (1 / 2)).2 idA {} true).2).pending =
      ((stopAudio sOnce idA (1 / 2)).2).pending ∧
    ((playAudio (stopAudio sOnce idA (1 / 2)).2 idA {} true).2).sources.lookup idA =
      some sOnce.nextNode ∧
    sOnce.nextNode ≠ 0 ∧
    (fireTimeout ((playAudio (stopAudio sOnce idA (1 / 2)).2 idA {} true).2)
        (Timeout.stopCleanup idA 0 (1 / 2 * 1000))).sources.lookup idA = none ∧
    (fireTimeout ((playAudio (stopAudio sOnce idA (1 / 2)).2 idA {} true).2)
        (Timeout.stopCleanup idA 0 (1 / 2 * 1000))).gainNodes.lookup idA = none ∧
    (fireTimeout ((playAudio (stopAudio sOnce idA (1 / 2)).2 idA {} true).2)
        (Timeout.stopCleanup idA 0 (1 / 2 * 1000))).effectNodes.lookup idA = none ∧
    (fireTimeout ((playAudio (stopAudio sOnce idA (1 / 2)).2 idA {} true).2)
        (Timeout.stopCleanup idA 0 (1 / 2 * 1000))).cmds =
      ((playAudio (stopAudio sOnce idA (1 / 2)).2 idA {} true).2).cmds ++
        [AudioCmd.sourceStop 0] :=
  pending_stop_not_cancelled sOnce idA (1 / 2) {} 0 ⟨1, 0⟩
    (by simp [sOnce, playAudio, emptyAudioState, mset, buildEffectChain, List.lookup])
    (by simp [sOnce, playAudio, emptyAudioState, mset, buildEffectChain, List.lookup])
    (by norm_num [sOnce, playAudio, emptyAudioState, buildEffectChain])

/-! ## C10 -/

theorem rayCond_symm (p a b : Pt) : rayCond p a b = rayCond p b a := by
  unfold rayCond
  rcases eq_or_ne a.lat b.lat with h | h
  · rw [h]
    simp
  · have hax : (decide (p.lat < a.lat) != decide (p.lat < b.lat)) =
        (decide (p.lat < b.lat) != decide (p.lat < a.lat)) := by
      cases hd1 : decide (p.lat < a.lat) <;> cases hd2 : decide (p.lat < b.lat) <;> rfl
    have hth : (b.lng - a.lng) * (p.lat - a.lat) / (b.lat - a.lat) + a.lng =
        (a.lng - b.lng) * (p.lat - b.lat) / (a.lat - b.lat) + b.lng := by
      have h2 : b.lat - a.lat ≠ 0 := sub_ne_zero.mpr (Ne.symm h)
      have h3 : a.lat - b.lat ≠ 0 := sub_ne_zero.mpr h
      field_simp
      ring
    rw [hax, hth]

/-- C10: `isPointInPolygon` returns `false` for every point when the
polygon has fewer than 3 vertices, and consequently
`getDistanceToBoundaryEdge` is never negative for such degenerate
polygons (its squared representative is nonnegative whenever defined;
the empty polygon yields the JS `Infinity`, modelled `none`). -/
theorem degenerate_polygon_outside (p : Pt) (poly : List Pt) (h : poly.length < 3) :
    isPointInPolygon p poly = false ∧
    (∀ d, getDistanceToBoundaryEdgeSq p poly = some d → 0 ≤ d) := by
  obtain _ | ⟨a, _ | ⟨b, _ | ⟨c, t⟩⟩⟩ := poly
  · exact ⟨rfl, fun d hd => by simp [getDistanceToBoundaryEdgeSq, minEdgeSq,
      isPointInPolygon] at hd⟩
  · have hin : isPointInPolygon p [a] = false := by
      simp [isPointInPolygon, rayCond, List.range_succ]
    refine ⟨hin, fun d hd => ?_⟩
    simp [getDistanceToBoundaryEdgeSq, hin, minEdgeSq, List.range_succ] at hd
    subst hd
    exact distanceToLineSq_nonneg _ _ _ _ _ _
  · have hin : isPointInPolygon p [a, b] = false := by
      unfold isPointInPolygon
      simp only [List.length_cons, List.length_nil, List.range_succ, List.range_zero,
        List.nil_append, List.foldl_cons, List.foldl_nil]
      norm_num
      rw [← rayCond_symm p a b]
      cases hr : rayCond p a b <;> simp [hr]
    refine ⟨hin, fun d hd => ?_⟩
    simp [getDistanceToBoundaryEdgeSq, hin, minEdgeSq, List.range_succ] at hd
    subst hd
    exact le_min (distanceToLineSq_nonneg _ _ _ _ _ _) (distanceToLineSq_nonneg _ _ _ _ _ _)
  · exfalso
    simp only [List.length_cons] at h
    omega

/-- Witness for C10 on a two-vertex polygon. -/
theorem degenerate_polygon_outside_w :
    isPointInPolygon ⟨0, 0⟩ polyTwo = false ∧
    (∀ d, getDistanceToBoundaryEdgeSq ⟨0, 0⟩ polyTwo = some d → 0 ≤ d) :=
  degenerate_polygon_outside ⟨0, 0⟩ polyTwo (by norm_num [polyTwo])

/-! ## C7 -/

/-- C7 counterexample: `simplifyPolygon` is not idempotent.  On `pcex`
(tolerance 55500, i.e. half a coordinate unit after the 111000 scale)
the first pass retains `(8,2)` — it is far from the chord
`(2,3)`–`(10,0)` chosen when the duplicate `(2,3)` splits the right
segment — but the `includes` dedup drops the duplicate itself, so the
second pass measures `(8,2)` against the chord `(5,5)`–`(10,0)`, on
which it lies, and drops it. -/
theorem simplify_not_idempotent_cex :
    simplifyPolygon pcex 55500 = some rcexMid ∧
    simplifyPolygon rcexMid 55500 = some rcexFinal ∧
    rcexFinal ≠ rcexMid := by
  refine ⟨?_, ?_, by simp [rcexMid, rcexFinal]⟩ <;>
    norm_num [simplifyPolygon, simplifySegment, findFurthestPoint, ffGen, dSq,
      distanceToLineSq, exceedsTol, pcex, rcexMid, rcexFinal, List.range',
      List.contains]

theorem dedupExtend_append (init : List Pt) (l1 l2 : List Pt) :
    dedupExtend init (l1 ++ l2) = dedupExtend (dedupExtend init l1) l2 :=
  List.foldl_append _ _ _ _

theorem simplifySegment_eq_keptIdx (pts : List Pt) (tol : ℚ) :
    ∀ (f a b : Nat) (res : List Pt),
      simplifySegment pts tol f a b res =
        (keptIdx pts tol f a b).map
          (fun ks => dedupExtend res (ks.map (fun i => pts.getD i default))) := by
  intro f
  induction f with
  | zero => intro a b res; rfl
  | succ f ih =>
    intro a b res
    rw [simplifySegment, keptIdx]
    cases hex : exceedsTol tol (findFurthestPoint pts a b).1
    · simp only [Bool.false_eq_true, if_false]
      rfl
    · simp only [if_true]
      cases hL : keptIdx pts tol f a (findFurthestPoint pts a b).2 with
      | none => simp [ih, hL]
      | some l =>
        cases hR : keptIdx pts tol f (findFurthestPoint pts a b).2 b with
        | none => simp [ih, hL, hR]
        | some r =>
          simp [ih, hL, hR, List.map_append, dedupExtend_append]

theorem dSq_nonneg (pts : List Pt) (i a b : Nat) : 0 ≤ dSq pts i a b :=
  distanceToLineSq_nonneg _ _ _ _ _ _

theorem ffGen_fold_spec (d : Nat → ℚ) (hd : ∀ i, 0 ≤ d i) (a : Nat) :
    ∀ k,
      ((List.range' (a + 1) k).foldl
          (fun m i => if m.1 < d i then (d i, i) else m) (0, 0) = ((0 : ℚ), 0) ∧
        ∀ i, a < i → i < a + 1 + k → d i = 0) ∨
      (∃ m j, (List.range' (a + 1) k).foldl
          (fun m i => if m.1 < d i then (d i, i) else m) (0, 0) = (m, j) ∧
        0 < m ∧ a < j ∧ j < a + 1 + k ∧ d j = m ∧
        (∀ i, a < i → i < j → d i < m) ∧ (∀ i, j < i → i < a + 1 + k → d i ≤ m)) := by
  intro k
  induction k with
  | zero =>
    left
    exact ⟨rfl, fun i h1 h2 => absurd h2 (by omega)⟩
  | succ k ih =>
    have hsplit : List.range' (a + 1) (k + 1) = List.range' (a + 1) k ++ [a + 1 + k] := by
      rw [List.range'_concat]
      simp [Nat.one_mul]
    rw [hsplit, List.foldl_append, List.foldl_cons, List.foldl_nil]
    rcases ih with ⟨heq, hall⟩ | ⟨m, j, heq, hm, haj, hjk, hdj, hbef, haft⟩
    · rw [heq]
      by_cases h0 : (0 : ℚ) < d (a + 1 + k)
      · right
        refine ⟨d (a + 1 + k), a + 1 + k, ?_, h0, by omega, by omega, rfl, ?_, ?_⟩
        · simp [h0]
        · intro i h1 h2
          rw [hall i h1 h2]
          exact h0
        · intro i h1 h2
          exact absurd h2 (by omega)
      · left
        refine ⟨by simp [h0], fun i h1 h2 => ?_⟩
        by_cases hik : i < a + 1 + k
        · exact hall i h1 hik
        · have hieq : i = a + 1 + k := by omega
          rw [hieq]
          exact le_antisymm (not_lt.mp h0) (hd _)
    · rw [heq]
      by_cases hlt : m < d (a + 1 + k)
      · right
        refine ⟨d (a + 1 + k), a + 1 + k, by simp [hlt], hm.trans hlt, by omega, by omega,
          rfl, ?_, ?_⟩
        · intro i h1 h2
          rcases lt_trichotomy i j with h | h | h
          · exact (hbef i h1 h).trans hlt
          · rw [h, hdj]
            exact hlt
          · exact lt_of_le_of_lt (haft i h (by omega)) hlt
        · intro i h1 h2
          exact absurd h2 (by omega)
      · right
        refine ⟨m, j, by simp [hlt], hm, haj, by omega, hdj, hbef, fun i h1 h2 => ?_⟩
        by_cases hik : i < a + 1 + k
        · exact haft i h1 hik
        · have hieq : i = a + 1 + k := by omega
          rw [hieq]
          exact not_lt.mp hlt

theorem ffGen_spec (d : Nat → ℚ) (hd : ∀ i, 0 ≤ d i) (a b : Nat) :
    (ffGen d a b = ((0 : ℚ), 0) ∧ ∀ i, a < i → i < b → d i = 0) ∨
    (∃ m j, ffGen d a b = (m, j) ∧ 0 < m ∧ a < j ∧ j < b ∧ d j = m ∧
      (∀ i, a < i → i < j → d i < m) ∧ (∀ i, j < i → i < b → d i ≤ m)) := by
  have h := ffGen_fold_spec d hd a (b - (a + 1))
  unfold ffGen
  by_cases hab : a + 1 ≤ b
  · have hk : a + 1 + (b - (a + 1)) = b := by omega
    rw [hk] at h
    exact h
  · have hk0 : b - (a + 1) = 0 := by omega
    left
    rw [hk0]
    exact ⟨rfl, fun i h1 h2 => absurd h2 (by omega)⟩

theorem ffGen_fst_nonneg (d : Nat → ℚ) (hd : ∀ i, 0 ≤ d i) (a b : Nat) :
    0 ≤ (ffGen d a b).1 := by
  rcases ffGen_spec d hd a b with ⟨heq, _⟩ | ⟨m, j, heq, hm, _⟩
  · rw [heq]
  · rw [heq]
    exact hm.le

theorem ffGen_peak (d : Nat → ℚ) (hd : ∀ i, 0 ≤ d i) (a b p : Nat) (D : ℚ)
    (hap : a < p) (hpb : p < b) (hD : 0 < D) (hdp : d p = D)
    (hbefore : ∀ i, a < i → i < p → d i < D)
    (hafter : ∀ i, p < i → i < b → d i ≤ D) :
    ffGen d a b = (D, p) := by
  rcases ffGen_spec d hd a b with ⟨heq, hall⟩ | ⟨m, j, heq, hm, haj, hjb, hdj, hbef, haft⟩
  · have h0 := hall p hap hpb
    rw [hdp] at h0
    exact absurd h0 (ne_of_gt hD)
  · rcases lt_trichotomy j p with h | h | h
    · have h1 : d p ≤ m := haft p h hpb
      have h2 : d j < D := hbefore j haj h
      rw [hdp] at h1
      rw [hdj] at h2
      exact absurd (lt_of_le_of_lt h1 h2) (lt_irrefl D)
    · have hmD : m = D := by rw [← hdj, h, hdp]
      rw [heq, hmD, h]
    · have h1 : d p < m := hbef p hap h
      have h2 : d j ≤ D := hafter j h hjb
      rw [hdp] at h1
      rw [hdj] at h2
      exact absurd (lt_of_lt_of_le h1 h2) (lt_irrefl D)

theorem exceedsTol_pos (tol msq : ℚ) (ht : 0 ≤ tol) (h : exceedsTol tol msq = true) :
    0 < msq := by
  unfold exceedsTol at h
  rw [decide_eq_true_iff] at h
  nlinarith [mul_nonneg ht (abs_nonneg tol)]

theorem exceedsTol_of_neg (tol msq : ℚ) (ht : tol < 0) (hm : 0 ≤ msq) :
    exceedsTol tol msq = true := by
  unfold exceedsTol
  rw [decide_eq_true_iff]
  have h1 : tol * |tol| < 0 := by
    rw [abs_of_neg ht]
    nlinarith
  nlinarith [mul_nonneg hm (by norm_num : (0 : ℚ) ≤ 111000 ^ 2)]

theorem keptIdx_split (pts : List Pt) (tol : ℚ) (ht : 0 ≤ tol) (a b : Nat)
    (hex : exceedsTol tol (findFurthestPoint pts a b).1 = true) :
    a < (findFurthestPoint pts a b).2 ∧ (findFurthestPoint pts a b).2 < b := by
  have hpos := exceedsTol_pos tol _ ht hex
  unfold findFurthestPoint at hpos ⊢
  rcases ffGen_spec (fun i => dSq pts i a b) (fun i => dSq_nonneg pts i a b) a b with
    ⟨heq, _⟩ | ⟨m, j, heq, _, haj, hjb, _⟩
  · rw [heq] at hpos
    exact absurd hpos (lt_irrefl 0)
  · rw [heq]
    exact ⟨haj, hjb⟩

theorem keptIdx_props (pts : List Pt) (tol : ℚ) (ht : 0 ≤ tol) :
    ∀ (f a b : Nat) (ks : List Nat), keptIdx pts tol f a b = some ks → a < b →
      ks ≠ [] ∧ ks.getLast? = some b ∧ ks.Chain' (· < ·) ∧ ∀ i ∈ ks, a < i ∧ i ≤ b := by
  intro f
  induction f with
  | zero =>
    intro a b ks h
    exact absurd h (by simp [keptIdx])
  | succ f ih =>
    intro a b ks h hab
    rw [keptIdx] at h
    by_cases hex : exceedsTol tol (findFurthestPoint pts a b).1
    · rw [if_pos hex] at h
      obtain ⟨hai, hib⟩ := keptIdx_split pts tol ht a b hex
      cases hL : keptIdx pts tol f a (findFurthestPoint pts a b).2 with
      | none =>
        rw [hL] at h
        simp at h
      | some l =>
        cases hR : keptIdx pts tol f (findFurthestPoint pts a b).2 b with
        | none =>
          rw [hL, hR] at h
          simp at h
        | some r =>
          rw [hL, hR] at h
          simp at h
          obtain ⟨hl1, hl2, hl3, hl4⟩ := ih a _ l hL hai
          obtain ⟨hr1, hr2, hr3, hr4⟩ := ih _ b r hR hib
          subst h
          refine ⟨by simp [hr1], ?_, ?_, ?_⟩
          · rw [List.getLast?_append_of_ne_nil _ hr1]
            exact hr2
          · refine List.Chain'.append hl3 hr3 ?_
            intro x hx y hy
            have hxl : x = (findFurthestPoint pts a b).2 := by
              rw [hl2] at hx
              exact (by simpa using hx : _ = x).symm
            have hyr : y ∈ r := List.mem_of_mem_head? hy
            rw [hxl]
            exact (hr4 y hyr).1
          · intro i hi
            rcases List.mem_append.mp hi with hil | hir
            · obtain ⟨h1, h2⟩ := hl4 i hil
              exact ⟨h1, h2.trans hib.le⟩
            · obtain ⟨h1, h2⟩ := hr4 i hir
              exact ⟨hai.trans h1, h2⟩
    · rw [if_neg hex] at h
      have hks : [b] = ks := by simpa using h
      subst hks
      exact ⟨by simp, by simp, by simp, by simp [hab]⟩

theorem keptIdx_mono (pts : List Pt) (tol : ℚ) :
    ∀ (f a b : Nat) (ks : List Nat), keptIdx pts tol f a b = some ks →
      ∀ f2, f ≤ f2 → keptIdx pts tol f2 a b = some ks := by
  intro f
  induction f with
  | zero =>
    intro a b ks h
    exact absurd h (by simp [keptIdx])
  | succ f ih =>
    intro a b ks h f2 hle
    obtain ⟨f2', rfl⟩ : ∃ g, f2 = g + 1 := ⟨f2 - 1, by omega⟩
    rw [keptIdx] at h ⊢
    by_cases hex : exceedsTol tol (findFurthestPoint pts a b).1
    · rw [if_pos hex] at h ⊢
      cases hL : keptIdx pts tol f a (findFurthestPoint pts a b).2 with
      | none =>
        rw [hL] at h
        simp at h
      | some l =>
        cases hR : keptIdx pts tol f (findFurthestPoint pts a b).2 b with
        | none =>
          rw [hL, hR] at h
          simp at h
        | some r =>
          rw [hL, hR] at h
          rw [ih _ _ _ hL f2' (by omega), ih _ _ _ hR f2' (by omega)]
          exact h
    · rw [if_neg hex] at h ⊢
      exact h

theorem keptIdx_total (pts : List Pt) (tol : ℚ) (ht : 0 ≤ tol) :
    ∀ (f a b : Nat), a < b → b - a < f → ∃ ks, keptIdx pts tol f a b = some ks := by
  intro f
  induction f with
  | zero =>
    intro a b hab hba
    omega
  | succ f ih =>
    intro a b hab hba
    rw [keptIdx]
    by_cases hex : exceedsTol tol (findFurthestPoint pts a b).1
    · rw [if_pos hex]
      obtain ⟨hai, hib⟩ := keptIdx_split pts tol ht a b hex
      obtain ⟨l, hl⟩ := ih a _ hai (by omega)
      obtain ⟨r, hr⟩ := ih _ b hib (by omega)
      exact ⟨l ++ r, by rw [hl, hr]; rfl⟩
    · rw [if_neg hex]
      exact ⟨[b], rfl⟩

theorem keptIdx_none_of_neg (pts : List Pt) (tol : ℚ) (ht : tol < 0) :
    ∀ f a b, keptIdx pts tol f a b = none := by
  intro f
  induction f with
  | zero => intro a b; rfl
  | succ f ih =>
    intro a b
    rw [keptIdx]
    have hex : exceedsTol tol (findFurthestPoint pts a b).1 = true :=
      exceedsTol_of_neg tol _ ht
        (ffGen_fst_nonneg _ (fun i => dSq_nonneg pts i a b) a b)
    rw [if_pos hex, ih]
    rfl

theorem getD_map_lt {α β : Type} (f : α → β) (l : List α) (k : Nat) (d : β) (d2 : α)
    (h : k < l.length) : (l.map f).getD k d = f (l.getD k d2) := by
  rw [List.getD_eq_getElem (l.map f) d (by simpa using h), List.getElem_map,
    List.getD_eq_getElem l d2 h]

theorem getD_append_right_len {α : Type} (l r : List α) (i : Nat) (d : α) :
    (l ++ r).getD (l.length + i) d = r.getD i d := by
  rw [List.getD_eq_getElem?_getD, List.getD_eq_getElem?_getD,
    List.getElem?_append_right (Nat.le_add_right _ _), Nat.add_sub_cancel_left]

theorem getD_of_getLast? {α : Type} (l : List α) (x d : α)
    (h : l.getLast? = some x) : l.getD (l.length - 1) d = x := by
  rw [List.getD_eq_getElem?_getD, ← List.getLast?_eq_getElem?, h]
  rfl

theorem chain_lt_getD_lt_last (l : List Nat) (hc : l.Chain' (· < ·)) (x : Nat)
    (hx : l.getLast? = some x) (u : Nat) (hu : u < l.length - 1) :
    l.getD u 0 < x := by
  have hp : l.Pairwise (· < ·) := List.chain'_iff_pairwise.mp hc
  have hlen : 0 < l.length := by
    cases l
    · simp at hx
    · simp
  have hxe : l.getD (l.length - 1) 0 = x := getD_of_getLast? l x 0 hx
  rw [← hxe, List.getD_eq_getElem l 0 (by omega), List.getD_eq_getElem l 0 (by omega)]
  exact List.pairwise_iff_getElem.mp hp u (l.length - 1) (by omega) (by omega) (by omega)

theorem getD_mem {α : Type} (l : List α) (u : Nat) (d : α) (h : u < l.length) :
    l.getD u d ∈ l := by
  rw [List.getD_eq_getElem l d h]
  exact List.getElem_mem h

theorem dSq_congr (pts1 pts2 : List Pt) (i1 a1 b1 i2 a2 b2 : Nat)
    (h1 : pts1.getD i1 default = pts2.getD i2 default)
    (h2 : pts1.getD a1 default = pts2.getD a2 default)
    (h3 : pts1.getD b1 default = pts2.getD b2 default) :
    dSq pts1 i1 a1 b1 = dSq pts2 i2 a2 b2 := by
  unfold dSq
  rw [h1, h2, h3]

theorem keptIdx_mirror (P : List Pt) (tol : ℚ) (ht : 0 ≤ tol) (KS : List Nat)
    (R : List Pt) (hR : R = P.getD 0 default :: KS.map (fun i => P.getD i default)) :
    ∀ (f a b : Nat) (ks pre post : List Nat),
      keptIdx P tol f a b = some ks → a < b →
      KS = pre ++ ks ++ post →
      R.getD pre.length default = P.getD a default →
      keptIdx R tol f pre.length (pre.length + ks.length) =
        some (List.range' (pre.length + 1) ks.length) := by
  have hRval : ∀ k, k < KS.length →
      R.getD (k + 1) default = P.getD (KS.getD k 0) default := by
    intro k hk
    rw [hR, List.getD_cons_succ]
    exact getD_map_lt _ _ _ _ 0 hk
  intro f
  induction f with
  | zero =>
    intro a b ks pre post h
    exact absurd h (by simp [keptIdx])
  | succ f ih =>
    intro a b ks pre post h hab hKS hpre
    rw [keptIdx] at h
    by_cases hex : exceedsTol tol (findFurthestPoint P a b).1
    · -- split case
      rw [if_pos hex] at h
      obtain ⟨hai, hib⟩ := keptIdx_split P tol ht a b hex
      obtain ⟨msq, mi, hffP⟩ : ∃ u v, findFurthestPoint P a b = (u, v) :=
        ⟨(findFurthestPoint P a b).1, (findFurthestPoint P a b).2, rfl⟩
      rw [hffP] at hex h hai hib
      simp only at hex h hai hib
      have hmsqpos : 0 < msq := exceedsTol_pos tol msq ht hex
      have hffG : ffGen (fun i => dSq P i a b) a b = (msq, mi) := hffP
      cases hL : keptIdx P tol f a mi with
      | none =>
        rw [hL] at h
        simp at h
      | some l =>
        cases hR2 : keptIdx P tol f mi b with
        | none =>
          rw [hL, hR2] at h
          simp at h
        | some r =>
          rw [hL, hR2] at h
          simp at h
          subst h
          obtain ⟨hl1, hl2, hl3, hl4⟩ := keptIdx_props P tol ht f a mi l hL hai
          obtain ⟨hr1, hr2, hr3, hr4⟩ := keptIdx_props P tol ht f mi b r hR2 hib
          have hlpos : 0 < l.length := List.length_pos.mpr hl1
          have hrpos : 0 < r.length := List.length_pos.mpr hr1
          have hlen : (l ++ r).length = l.length + r.length := List.length_append _ _
          have hKSlen : KS.length = pre.length + (l.length + r.length) + post.length := by
            rw [hKS]
            simp [List.length_append]
            omega
          -- pass-1 ffGen properties
          have hspec := ffGen_spec (fun i => dSq P i a b) (fun i => dSq_nonneg P i a b) a b
          rcases hspec with ⟨heq0, _⟩ | ⟨m, j, heqj, hm, haj, hjb, hdj, hbef1, haft1⟩
          · exfalso
            rw [hffG] at heq0
            have : msq = 0 := congrArg Prod.fst heq0
            rw [this] at hmsqpos
            exact lt_irrefl 0 hmsqpos
          · rw [hffG] at heqj
            have hm1 : msq = m := congrArg Prod.fst heqj
            have hj1 : mi = j := congrArg Prod.snd heqj
            subst hm1
            subst hj1
            -- value of KS at middle positions
            have hKSmid : ∀ u, u < (l ++ r).length →
                KS.getD (pre.length + u) 0 = (l ++ r).getD u 0 := by
              intro u hu
              rw [hKS, List.getD_append _ _ _ _
                  (by simp only [List.length_append]; omega),
                getD_append_right_len pre (l ++ r) u 0]
            -- values of R across the node interval
            have hval : ∀ u, u < (l ++ r).length →
                R.getD (pre.length + u + 1) default =
                  P.getD ((l ++ r).getD u 0) default := by
              intro u hu
              rw [show pre.length + u + 1 = (pre.length + u) + 1 by omega,
                hRval (pre.length + u) (by omega), hKSmid u hu]
            -- endpoint values
            have hbval : R.getD (pre.length + (l ++ r).length) default =
                P.getD b default := by
              have h1 : pre.length + (l ++ r).length =
                  pre.length + ((l ++ r).length - 1) + 1 := by omega
              rw [h1, show pre.length + ((l ++ r).length - 1) + 1 =
                (pre.length + ((l ++ r).length - 1)) + 1 by omega,
                hRval _ (by omega), hKSmid _ (by omega)]
              have hlast : (l ++ r).getLast? = some b := by
                rw [List.getLast?_append_of_ne_nil _ hr1]
                exact hr2
              exact congrArg (fun z => P.getD z default)
                (getD_of_getLast? (l ++ r) b 0 hlast)
            have hpval : R.getD (pre.length + l.length) default =
                P.getD mi default := by
              have h1 : pre.length + l.length =
                  pre.length + (l.length - 1) + 1 := by omega
              rw [h1, show pre.length + (l.length - 1) + 1 =
                (pre.length + (l.length - 1)) + 1 by omega,
                hRval _ (by omega), hKSmid _ (by omega)]
              have hgl : (l ++ r).getD (l.length - 1) 0 = l.getD (l.length - 1) 0 :=
                List.getD_append _ _ _ _ (by omega)
              rw [hgl]
              exact congrArg (fun z => P.getD z default)
                (getD_of_getLast? l mi 0 hl2)
            -- the pass-2 furthest point is the image of mi
            have hpeak : findFurthestPoint R pre.length (pre.length + (l ++ r).length) =
                (msq, pre.length + l.length) := by
              unfold findFurthestPoint
              refine ffGen_peak _ (fun i => dSq_nonneg R i _ _) _ _ _ msq
                (by omega) (by rw [hlen]; omega) hmsqpos ?_ ?_ ?_
              · -- value at the peak position
                show dSq R (pre.length + l.length) pre.length
                  (pre.length + (l ++ r).length) = msq
                rw [dSq_congr R P (pre.length + l.length) pre.length
                  (pre.length + (l ++ r).length) mi a b hpval hpre hbval]
                exact hdj
              · -- positions before the peak
                intro i h1 h2
                obtain ⟨u, rfl⟩ : ∃ u, i = pre.length + u + 1 :=
                  ⟨i - pre.length - 1, by omega⟩
                have hulen : u < l.length := by omega
                have hulast : u < l.length - 1 := by omega
                have hglu : (l ++ r).getD u 0 = l.getD u 0 :=
                  List.getD_append _ _ _ _ hulen
                have hmem : l.getD u 0 ∈ l := getD_mem _ _ _ hulen
                have haei : a < l.getD u 0 := (hl4 _ hmem).1
                have heim : l.getD u 0 < mi :=
                  chain_lt_getD_lt_last l hl3 mi hl2 _ hulast
                show dSq R (pre.length + u + 1) pre.length
                  (pre.length + (l ++ r).length) < msq
                rw [dSq_congr R P (pre.length + u + 1) pre.length
                  (pre.length + (l ++ r).length) (l.getD u 0) a b
                  (by rw [hval u (by rw [hlen]; omega), hglu]) hpre hbval]
                exact hbef1 _ haei heim
              · -- positions after the peak
                intro i h1 h2
                rw [hlen] at h2
                obtain ⟨u, rfl⟩ : ∃ u, i = pre.length + u + 1 :=
                  ⟨i - pre.length - 1, by omega⟩
                obtain ⟨w, rfl⟩ : ∃ w, u = l.length + w := ⟨u - l.length, by omega⟩
                have hulen : l.length + w < (l ++ r).length := by rw [hlen]; omega
                have hwlen : w < r.length := by omega
                have hwlast : w < r.length - 1 := by omega
                have hglu : (l ++ r).getD (l.length + w) 0 = r.getD w 0 :=
                  getD_append_right_len l r w 0
                have hmem : r.getD w 0 ∈ r := getD_mem _ _ _ hwlen
                have haei : mi < r.getD w 0 := (hr4 _ hmem).1
                have heib : r.getD w 0 < b :=
                  chain_lt_getD_lt_last r hr3 b hr2 _ hwlast
                show dSq R (pre.length + (l.length + w) + 1) pre.length
                  (pre.length + (l ++ r).length) ≤ msq
                rw [dSq_congr R P (pre.length + (l.length + w) + 1) pre.length
                  (pre.length + (l ++ r).length) (r.getD w 0) a b
                  (by rw [hval (l.length + w) hulen, hglu]) hpre hbval]
                exact haft1 _ haei heib
            -- apply the induction hypotheses to both children
            have ihL := ih a mi l pre (r ++ post) hL hai
              (by rw [hKS]; simp [List.append_assoc]) hpre
            have ihR := ih mi b r (pre ++ l) post hR2 hib
              (by rw [hKS]; simp [List.append_assoc])
              (by rw [List.length_append]; exact hpval)
            rw [List.length_append] at ihR
            -- assemble the pass-2 split
            rw [keptIdx]
            simp only [hpeak]
            rw [if_pos hex]
            rw [show pre.length + l.length + r.length =
              pre.length + (l ++ r).length by rw [hlen]; omega] at ihR
            rw [ihL, ihR]
            have hre : List.range' (pre.length + 1) l.length ++
                List.range' (pre.length + l.length + 1) r.length =
                List.range' (pre.length + 1) ((l ++ r).length) := by
              have hap := List.range'_append (pre.length + 1) l.length r.length 1
              rw [show pre.length + 1 + 1 * l.length = pre.length + l.length + 1
                by omega] at hap
              rw [hap]
              exact congrArg (List.range' (pre.length + 1)) (by rw [hlen]; omega)
            show some (List.range' (pre.length + 1) l.length ++
              List.range' (pre.length + l.length + 1) r.length) =
              some (List.range' (pre.length + 1) (l ++ r).length)
            rw [hre]
    · -- leaf case
      rw [if_neg hex] at h
      have hks : [b] = ks := by simpa using h
      subst hks
      have hff : findFurthestPoint R pre.length (pre.length + 1) = (0, 0) := by
        unfold findFurthestPoint ffGen
        rw [Nat.sub_self]
        rfl
      have hex2 : exceedsTol tol (0 : ℚ) = false := by
        unfold exceedsTol
        rw [decide_eq_false_iff_not]
        intro hcon
        nlinarith [mul_nonneg ht (abs_nonneg tol)]
      rw [keptIdx]
      simp only [List.length_singleton, hff]
      simp [hex2, List.range'_succ]

theorem dedupExtend_extends (l : List Pt) :
    ∀ init, ∃ t, dedupExtend init l = init ++ t := by
  induction l with
  | nil =>
    intro init
    exact ⟨[], by simp [dedupExtend]⟩
  | cons x xs ih =>
    intro init
    show ∃ t, dedupExtend (if init.contains x then init else init ++ [x]) xs = init ++ t
    by_cases hx : init.contains x
    · rw [if_pos hx]
      exact ih init
    · rw [if_neg hx]
      obtain ⟨t, htt⟩ := ih (init ++ [x])
      exact ⟨x :: t, by rw [htt]; simp⟩

theorem mem_dedupExtend_init (l init : List Pt) (x : Pt) (hx : x ∈ init) :
    x ∈ dedupExtend init l := by
  obtain ⟨t, htt⟩ := dedupExtend_extends l init
  rw [htt]
  exact List.mem_append_left _ hx

theorem mem_dedupExtend_of_mem (l : List Pt) :
    ∀ init x, x ∈ l → x ∈ dedupExtend init l := by
  induction l with
  | nil =>
    intro init x hx
    simp at hx
  | cons y ys ih =>
    intro init x hx
    show x ∈ dedupExtend (if init.contains y then init else init ++ [y]) ys
    rcases List.mem_cons.mp hx with hxy | hxs
    · subst hxy
      by_cases hy : init.contains x
      · rw [if_pos hy]
        exact mem_dedupExtend_init ys init x (by simpa using hy)
      · rw [if_neg hy]
        exact mem_dedupExtend_init ys _ x (by simp)
    · by_cases hy : init.contains y
      · rw [if_pos hy]
        exact ih init x hxs
      · rw [if_neg hy]
        exact ih _ x hxs

theorem dedupExtend_of_nodup (l : List Pt) :
    ∀ init, l.Nodup → (∀ x ∈ l, x ∉ init) → dedupExtend init l = init ++ l := by
  induction l with
  | nil =>
    intro init _ _
    simp [dedupExtend]
  | cons y ys ih =>
    intro init hnd hdisj
    show dedupExtend (if init.contains y then init else init ++ [y]) ys = init ++ y :: ys
    have hy : ¬ init.contains y = true := by
      simp [hdisj y (by simp)]
    rw [if_neg hy]
    obtain ⟨hy1, hy2⟩ := List.nodup_cons.mp hnd
    rw [ih (init ++ [y]) hy2 ?_]
    · simp
    · intro x hxy
      simp only [List.mem_append, List.mem_singleton]
      rintro (hxi | rfl)
      · exact hdisj x (by simp [hxy]) hxi
      · exact hy1 hxy

theorem mem_of_getLast?_eq {α : Type} (l : List α) (x : α)
    (h : l.getLast? = some x) : x ∈ l := by
  rw [List.getLast?_eq_getElem?] at h
  have hlen : l.length - 1 < l.length := by
    cases l
    · simp at h
    · simp
  rw [List.getElem?_eq_getElem hlen] at h
  have hx : l[l.length - 1] = x := by simpa using h
  rw [← hx]
  exact List.getElem_mem hlen

theorem val_injOn (P : List Pt) (hdist : P.Pairwise (· ≠ ·)) (i j : Nat)
    (hi : i < P.length) (hj : j < P.length) (hij : i < j) :
    P.getD i default ≠ P.getD j default := by
  rw [List.getD_eq_getElem P default hi, List.getD_eq_getElem P default hj]
  exact List.pairwise_iff_getElem.mp hdist i j hi hj hij

theorem tol_nonneg_of_keptIdx_some (P : List Pt) (tol : ℚ) (f a b : Nat)
    (ks : List Nat) (h : keptIdx P tol f a b = some ks) : 0 ≤ tol := by
  by_contra hneg
  rw [keptIdx_none_of_neg P tol (not_le.mp hneg) f a b] at h
  simp at h

theorem simplifyPolygon_some_structure (P : List Pt) (tol : ℚ) (R : List Pt)
    (hn : ¬ P.length ≤ 2) (h : simplifyPolygon P tol = some R) :
    ∃ KS, keptIdx P tol P.length 0 (P.length - 1) = some KS ∧
      R = dedupExtend [P.getD 0 default] (KS.map (fun i => P.getD i default)) := by
  unfold simplifyPolygon at h
  rw [if_neg hn, simplifySegment_eq_keptIdx] at h
  cases hk : keptIdx P tol P.length 0 (P.length - 1) with
  | none =>
    rw [hk] at h
    simp at h
  | some KS =>
    rw [hk] at h
    refine ⟨KS, rfl, ?_⟩
    simpa using h.symm

/-- C7 (amended): on a list of pairwise-distinct points, whenever
`simplifyPolygon` returns a result `R`, running it again on `R`
returns `R` unchanged; when the input repeats a point value the
`includes` dedup can make the second pass drop a retained point (see
the counterexample).  The output always contains the first and the
last point of the input. -/
theorem simplify_idempotent_distinct_endpoints :
    (∀ (P : List Pt) (tol : ℚ) (R : List Pt), P.Pairwise (· ≠ ·) →
      simplifyPolygon P tol = some R → simplifyPolygon R tol = some R) ∧
    (∀ (P : List Pt) (tol : ℚ) (R : List Pt), simplifyPolygon P tol = some R →
      (∀ x, P.head? = some x → x ∈ R) ∧ (∀ x, P.getLast? = some x → x ∈ R)) := by
  constructor
  · intro P tol R hdist hs
    by_cases hn : P.length ≤ 2
    · have hPR : P = R := by
        unfold simplifyPolygon at hs
        rw [if_pos hn] at hs
        simpa using hs
      subst hPR
      unfold simplifyPolygon
      rw [if_pos hn]
    · obtain ⟨KS, hk, hRdef⟩ := simplifyPolygon_some_structure P tol R hn hs
      have ht : 0 ≤ tol := tol_nonneg_of_keptIdx_some P tol _ _ _ _ hk
      have hab : (0 : Nat) < P.length - 1 := by omega
      obtain ⟨hK1, hK2, hK3, hK4⟩ :=
        keptIdx_props P tol ht P.length 0 (P.length - 1) KS hk hab
      have hKpair : KS.Pairwise (· < ·) := List.chain'_iff_pairwise.mp hK3
      have hvals_nodup : (KS.map (fun i => P.getD i default)).Nodup := by
        rw [List.Nodup, List.pairwise_iff_getElem]
        intro u v hu hv huv
        simp only [List.length_map] at hu hv
        rw [List.getElem_map, List.getElem_map]
        have hlt : KS[u] < KS[v] := List.pairwise_iff_getElem.mp hKpair u v hu hv huv
        have hvb : KS[v] ≤ P.length - 1 := (hK4 _ (List.getElem_mem hv)).2
        exact val_injOn P hdist KS[u] KS[v] (by omega) (by omega) hlt
      have hvals_notin : ∀ x ∈ KS.map (fun i => P.getD i default),
          x ∉ [P.getD 0 default] := by
        intro x hx
        obtain ⟨i, hiK, rfl⟩ := List.mem_map.mp hx
        obtain ⟨hi1, hi2⟩ := hK4 i hiK
        simp only [List.mem_singleton]
        exact (val_injOn P hdist 0 i (by omega) (by omega) hi1).symm
      have hRcons : R = P.getD 0 default :: KS.map (fun i => P.getD i default) := by
        rw [hRdef, dedupExtend_of_nodup _ _ hvals_nodup hvals_notin]
        simp
      have hRlen : R.length = KS.length + 1 := by
        rw [hRcons]
        simp
      by_cases hR2 : R.length ≤ 2
      · unfold simplifyPolygon
        rw [if_pos hR2]
      · have hKnodup : KS.Nodup := hKpair.imp (fun hlt => Nat.ne_of_lt hlt)
        have hKsub : KS ⊆ List.range' 1 (P.length - 1) := by
          intro i hi
          obtain ⟨h1, h2⟩ := hK4 i hi
          rw [List.mem_range'_1]
          omega
        have hKlen : KS.length ≤ P.length - 1 := by
          have hsp := (List.subperm_of_subset hKnodup hKsub).length_le
          simpa using hsp
        have hRleP : R.length ≤ P.length := by omega
        have hmir := keptIdx_mirror P tol ht KS R hRcons P.length 0 (P.length - 1)
          KS [] [] hk hab (by simp) (by rw [hRcons]; rfl)
        simp only [List.length_nil, Nat.zero_add] at hmir
        obtain ⟨X, hX⟩ := keptIdx_total R tol ht R.length 0 (R.length - 1)
          (by omega) (by omega)
        have hXup := keptIdx_mono R tol R.length 0 (R.length - 1) X hX P.length hRleP
        rw [show R.length - 1 = KS.length by omega] at hXup
        rw [hmir] at hXup
        have hXeq : X = List.range' 1 KS.length := by simpa using hXup.symm
        have hmap : (List.range' 1 KS.length).map (fun i => R.getD i default) =
            KS.map (fun i => P.getD i default) := by
          apply List.ext_getElem
          · simp
          · intro u h1 h2
            simp only [List.getElem_map, List.getElem_range']
            rw [show (1 : Nat) + 1 * u = u + 1 by omega]
            rw [hRcons, List.getD_cons_succ]
            rw [getD_map_lt (fun i => P.getD i default) KS u default 0
              (by simpa using h2)]
            rw [List.getD_eq_getElem KS 0 (by simpa using h2)]
        have hR0 : R.getD 0 default = P.getD 0 default := by
          rw [hRcons]
          rfl
        unfold simplifyPolygon
        rw [if_neg hR2, simplifySegment_eq_keptIdx, hX, hXeq]
        show some (dedupExtend [R.getD 0 default]
          ((List.range' 1 KS.length).map (fun i => R.getD i default))) = some R
        rw [hmap, hR0, ← hRdef]
  · intro P tol R hs
    by_cases hn : P.length ≤ 2
    · have hPR : P = R := by
        unfold simplifyPolygon at hs
        rw [if_pos hn] at hs
        simpa using hs
      subst hPR
      constructor
      · intro x hx
        exact List.mem_of_mem_head? (by simp [hx])
      · intro x hx
        exact mem_of_getLast?_eq P x hx
    · obtain ⟨KS, hk, hRdef⟩ := simplifyPolygon_some_structure P tol R hn hs
      have ht : 0 ≤ tol := tol_nonneg_of_keptIdx_some P tol _ _ _ _ hk
      have hab : (0 : Nat) < P.length - 1 := by omega
      obtain ⟨hK1, hK2, hK3, hK4⟩ :=
        keptIdx_props P tol ht P.length 0 (P.length - 1) KS hk hab
      constructor
      · intro x hx
        have hx0 : x = P.getD 0 default := by
          rw [List.head?_eq_getElem?,
            List.getElem?_eq_getElem (by omega : 0 < P.length)] at hx
          have hinj := Option.some.inj hx
          rw [List.getD_eq_getElem P default (by omega)]
          exact hinj.symm
        rw [hx0, hRdef]
        exact mem_dedupExtend_init _ _ _ (by simp)
      · intro x hx
        have hxl : x = P.getD (P.length - 1) default := by
          rw [List.getLast?_eq_getElem?,
            List.getElem?_eq_getElem (by omega : P.length - 1 < P.length)] at hx
          have hinj := Option.some.inj hx
          rw [List.getD_eq_getElem P default (by omega)]
          exact hinj.symm
        have hmemKS : P.length - 1 ∈ KS := mem_of_getLast?_eq KS _ hK2
        rw [hxl, hRdef]
        exact mem_dedupExtend_of_mem _ _ _
          (List.mem_map.mpr ⟨P.length - 1, hmemKS, rfl⟩)

/-- Witness for C7 on a duplicate-free three-point input at tolerance
0: the simplified output is the input itself, and a second pass
reproduces it. -/
theorem simplify_idempotent_distinct_endpoints_w :
    simplifyPolygon pwit 0 = some pwit ∧
    (∀ x, pwit.head? = some x → x ∈ pwit) ∧
    (∀ x, pwit.getLast? = some x → x ∈ pwit) := by
  have h1 : simplifyPolygon pwit 0 = some pwit := by
    norm_num [simplifyPolygon, simplifySegment, findFurthestPoint, ffGen, dSq,
      distanceToLineSq, exceedsTol, pwit, List.range', List.contains,
      List.getElem_cons_zero, List.getElem_cons_succ, Pt.mk.injEq, List.mem_cons,
      List.mem_singleton]
    decide
  have hdist : pwit.Pairwise (· ≠ ·) := by
    norm_num [pwit, List.pairwise_cons, Pt.mk.injEq]
  exact ⟨simplify_idempotent_distinct_endpoints.1 pwit 0 pwit hdist h1,
    (simplify_idempotent_distinct_endpoints.2 pwit 0 pwit h1).1,
    (simplify_idempotent_distinct_endpoints.2 pwit 0 pwit h1).2⟩

end Eonta
